/-
Verification of the AirView server core (room / playback / ad coordination)
and the client sync reconciliation loop.

The definitions below are a shallow embedding of:
  * packages/server/src/room-manager.ts   (class RoomManager)
  * the server socket handlers (setupSocketHandlers: ad_started, ad_finished,
    leave_room / disconnect)
  * the client SyncManager.performSync / adjustPlaybackRate drift policy.

Modelling conventions:
  * JavaScript `Map` objects and plain objects keyed by string are embedded
    as association lists in insertion order.  `Map.set` / `obj[k] = v`
    replaces the value in place when the key is present and appends
    otherwise; `Map.delete` / `delete obj[k]` removes the entry;
    `Object.keys` / iteration order is the list order.  (All keys in this
    program are socket / room identifiers, i.e. non-integer-like strings,
    for which JavaScript preserves insertion order.)
  * `Date.now()` is threaded explicitly as a `now : Nat` parameter at every
    call site where the source reads the clock.
  * `generateRoomId()` draws a fresh random 6-character id; the embedding
    takes the generated id as an explicit parameter.
  * JavaScript numbers holding media positions (seconds) are embedded as ℚ.
-/
import Mathlib

namespace AirView

/-! ### Association lists with JavaScript Map / object semantics -/

/-- Lookup (`Map.get` / `obj[k]`). -/
def lookupA {α : Type} (m : List (String × α)) (k : String) : Option α :=
  match m with
  | [] => none
  | (k', v') :: rest => if k' = k then some v' else lookupA rest k

/-- `Map.set m k v` / `obj[k] = v`: replace in place if present, else append. -/
def setA {α : Type} (m : List (String × α)) (k : String) (v : α) :
    List (String × α) :=
  match m with
  | [] => [(k, v)]
  | (k', v') :: rest => if k' = k then (k, v) :: rest else (k', v') :: setA rest k v

/-- `Map.delete m k` / `delete obj[k]`. -/
def eraseA {α : Type} (m : List (String × α)) (k : String) :
    List (String × α) :=
  m.filter (fun p => p.1 ≠ k)

/-- `Object.keys` / `Map.keys` in iteration order. -/
def keysA {α : Type} (m : List (String × α)) : List String :=
  m.map Prod.fst

/-- `Map.has` / `k in obj`. -/
def hasA {α : Type} (m : List (String × α)) (k : String) : Bool :=
  (lookupA m k).isSome

/-- `Map.values` in iteration order (`Array.from(m.values())`). -/
def valuesA {α : Type} (m : List (String × α)) : List α :=
  m.map Prod.snd

/-! ### Data model (packages/server/src/types.ts) -/

/-- Participant device class. -/
inductive DeviceType where
  | desktop
  | mobile
deriving DecidableEq, Repr

/-- `interface Participant`. -/
structure Participant where
  id : String
  userId : String
  deviceType : DeviceType
  displayName : Option String
  isHost : Bool
  joinedAt : Nat
deriving DecidableEq, Repr

/-- `type StreamingPlatform` — embedded as its string name. -/
abbrev StreamingPlatform := String

/-- `interface PlaybackState`. -/
structure PlaybackState where
  isPlaying : Bool
  timestamp : ℚ
  updatedAt : Nat
  platform : StreamingPlatform
deriving DecidableEq, Repr

/-- `interface AdUserInfo`. -/
structure AdUserInfo where
  oderId : String
  displayName : String
  estimatedDuration : Option Nat
  startedAt : Nat
deriving DecidableEq, Repr

/-- `interface AdState` (per room). -/
structure AdState where
  usersInAd : List (String × AdUserInfo)
  resumeTimestamp : ℚ
  resumeIsPlaying : Bool
deriving DecidableEq, Repr

/-- `interface RoomState`. -/
structure RoomState where
  roomId : String
  hostId : String
  participants : List (String × Participant)
  playback : PlaybackState
  adState : AdState
  createdAt : Nat
deriving DecidableEq, Repr

/-- The two private maps of `class RoomManager`. -/
structure ServerState where
  rooms : List (String × RoomState)
  socketToRoom : List (String × String)
deriving DecidableEq, Repr

/-- `new RoomManager()`. -/
def ServerState.init : ServerState := ⟨[], []⟩

/-! ### RoomManager operations (packages/server/src/room-manager.ts) -/

/-- `RoomManager.createRoom`.  `roomId` stands for the value of
`generateRoomId()`; `now` for `Date.now()`. -/
def createRoom (st : ServerState) (roomId hostSocketId hostUserId : String)
    (displayName : Option String) (now : Nat) : ServerState × RoomState :=
  let host : Participant :=
    { id := hostSocketId, userId := hostUserId, deviceType := .desktop,
      displayName := displayName, isHost := true, joinedAt := now }
  let room : RoomState :=
    { roomId := roomId, hostId := hostSocketId,
      participants := [(hostSocketId, host)],
      playback := { isPlaying := false, timestamp := 0, updatedAt := now,
                    platform := "unknown" },
      adState := { usersInAd := [], resumeTimestamp := 0,
                   resumeIsPlaying := false },
      createdAt := now }
  (⟨setA st.rooms roomId room, setA st.socketToRoom hostSocketId roomId⟩, room)

/-- `RoomManager.joinRoom`. -/
def joinRoom (st : ServerState) (roomId socketId userId : String)
    (deviceType : DeviceType) (displayName : Option String) (now : Nat) :
    ServerState × Option RoomState :=
  match lookupA st.rooms roomId with
  | none => (st, none)
  | some room =>
    let participant : Participant :=
      { id := socketId, userId := userId, deviceType := deviceType,
        displayName := displayName, isHost := false, joinedAt := now }
    let room' := { room with
      participants := setA room.participants socketId participant }
    (⟨setA st.rooms roomId room', setA st.socketToRoom socketId roomId⟩,
     some room')

/-- `RoomManager.leaveRoom`. -/
def leaveRoom (st : ServerState) (socketId : String) :
    ServerState × Option (String × Option RoomState) :=
  match lookupA st.socketToRoom socketId with
  | none => (st, none)
  | some roomId =>
    match lookupA st.rooms roomId with
    | none => (st, none)
    | some room =>
      let room₁ := { room with
        participants := eraseA room.participants socketId }
      let str' := eraseA st.socketToRoom socketId
      if room.hostId = socketId then
        match keysA room₁.participants with
        | [] =>
          (⟨eraseA st.rooms roomId, str'⟩, some (roomId, none))
        | newHost :: _ =>
          let room₂ := { room₁ with
            hostId := newHost,
            participants :=
              match lookupA room₁.participants newHost with
              | none => room₁.participants
              | some p => setA room₁.participants newHost { p with isHost := true } }
          (⟨setA st.rooms roomId room₂, str'⟩, some (roomId, some room₂))
      else
        (⟨setA st.rooms roomId room₁, str'⟩, some (roomId, some room₁))

/-- `RoomManager.updatePlayback`. -/
def updatePlayback (st : ServerState) (roomId : String) (isPlaying : Bool)
    (timestamp : ℚ) (platform : Option StreamingPlatform) (now : Nat) :
    ServerState × Option PlaybackState :=
  match lookupA st.rooms roomId with
  | none => (st, none)
  | some room =>
    let playback : PlaybackState :=
      { isPlaying := isPlaying, timestamp := timestamp, updatedAt := now,
        platform := platform.getD room.playback.platform }
    (⟨setA st.rooms roomId { room with playback := playback }, st.socketToRoom⟩,
     some playback)

/-- `RoomManager.getRoom`. -/
def getRoom (st : ServerState) (roomId : String) : Option RoomState :=
  lookupA st.rooms roomId

/-- `RoomManager.getRoomBySocket`. -/
def getRoomBySocket (st : ServerState) (socketId : String) : Option RoomState :=
  match lookupA st.socketToRoom socketId with
  | none => none
  | some roomId => lookupA st.rooms roomId

/-- `RoomManager.startAd`. -/
def startAd (st : ServerState) (roomId socketId displayName : String)
    (estimatedDuration : Option Nat) (now : Nat) :
    ServerState × Option (List String × Bool) :=
  match lookupA st.rooms roomId with
  | none => (st, none)
  | some room =>
    let isFirstAd := room.adState.usersInAd.length = 0
    let ad₁ : AdState :=
      if isFirstAd then
        { room.adState with
          resumeTimestamp := room.playback.timestamp,
          resumeIsPlaying := room.playback.isPlaying }
      else room.adState
    let info : AdUserInfo :=
      { oderId := socketId, displayName := displayName,
        estimatedDuration := estimatedDuration, startedAt := now }
    let ad₂ : AdState :=
      { ad₁ with usersInAd := setA ad₁.usersInAd socketId info }
    let usersToPause :=
      (keysA room.participants).filter
        (fun id => !(hasA ad₂.usersInAd id) && id ≠ socketId)
    (⟨setA st.rooms roomId { room with adState := ad₂ }, st.socketToRoom⟩,
     some (usersToPause, isFirstAd))

/-- `RoomManager.endAd`. -/
def endAd (st : ServerState) (roomId socketId : String) :
    ServerState × Option (Bool × ℚ × Bool) :=
  match lookupA st.rooms roomId with
  | none => (st, none)
  | some room =>
    let ad' := { room.adState with
      usersInAd := eraseA room.adState.usersInAd socketId }
    let allClear := ad'.usersInAd.length = 0
    (⟨setA st.rooms roomId { room with adState := ad' }, st.socketToRoom⟩,
     some (allClear, ad'.resumeTimestamp, ad'.resumeIsPlaying))

/-- `RoomManager.isEveryoneClearOfAds`. -/
def isEveryoneClearOfAds (st : ServerState) (roomId : String) : Bool :=
  match lookupA st.rooms roomId with
  | none => true
  | some room => room.adState.usersInAd.length = 0

/-- `RoomManager.getAdUsers`. -/
def getAdUsers (st : ServerState) (roomId : String) : List AdUserInfo :=
  match lookupA st.rooms roomId with
  | none => []
  | some room => valuesA room.adState.usersInAd

/-- `RoomManager.getParticipantName`. -/
def getParticipantName (st : ServerState) (roomId socketId : String) : String :=
  match lookupA st.rooms roomId with
  | none => "Unknown"
  | some room =>
    match lookupA room.participants socketId with
    | none => "User"
    | some p => p.displayName.getD "User"

/-! ### Socket handlers (setupSocketHandlers, server socket-handlers.ts)

Socket.io side effects are reified as a list of emitted messages.
`io.to(socketId)` targets one socket, `io.to(roomId)` targets every
participant of the room, `socket.to(roomId)` targets every participant
except the sender (socket.io room membership is kept in step with the
roster by the `socket.join` / `socket.leave` calls in the handlers). -/

/-- A message emitted by a handler, with its recipients. -/
inductive Emission where
  /-- `PAUSE_FOR_AD` to a single socket: `{usersInAd, resumeTimestamp}`. -/
  | pauseForAd (toSocket : String) (usersInAd : List AdUserInfo) (resumeTimestamp : ℚ)
  /-- `AD_STATE_UPDATE` via `socket.to(roomId)`: `{usersInAd}`. -/
  | adStateUpdate (recipients : List String) (usersInAd : List AdUserInfo)
  /-- `RESUME_ALL` via `io.to(roomId)`: `{timestamp, isPlaying}`. -/
  | resumeAll (recipients : List String) (timestamp : ℚ) (isPlaying : Bool)
deriving DecidableEq, Repr

/-- The `ad_started` event handler. -/
def handleAdStarted (st : ServerState) (socketId : String)
    (estimatedDuration : Option Nat) (now : Nat) : ServerState × List Emission :=
  match getRoomBySocket st socketId with
  | none => (st, [])
  | some room =>
    let displayName := getParticipantName st room.roomId socketId
    let res := startAd st room.roomId socketId displayName estimatedDuration now
    match res.2 with
    | none => (res.1, [])
    | some (usersToPause, _) =>
      let adUsers := getAdUsers res.1 room.roomId
      let pauses :=
        if usersToPause.length > 0 then
          usersToPause.map
            (fun uid => Emission.pauseForAd uid adUsers room.playback.timestamp)
        else []
      let others := (keysA room.participants).filter (fun id => id ≠ socketId)
      (res.1, pauses ++ [Emission.adStateUpdate others adUsers])

/-- The `ad_finished` event handler. -/
def handleAdFinished (st : ServerState) (socketId : String) :
    ServerState × List Emission :=
  match getRoomBySocket st socketId with
  | none => (st, [])
  | some room =>
    let res := endAd st room.roomId socketId
    match res.2 with
    | none => (res.1, [])
    | some (allClear, resumeTimestamp, resumeIsPlaying) =>
      let adUsers := getAdUsers res.1 room.roomId
      let main :=
        if allClear then
          Emission.resumeAll (keysA room.participants) resumeTimestamp resumeIsPlaying
        else
          Emission.pauseForAd socketId adUsers resumeTimestamp
      let others := (keysA room.participants).filter (fun id => id ≠ socketId)
      (res.1, [main, Emission.adStateUpdate others adUsers])

/-! ### Client reconciliation (SyncManager, extension sync-manager.ts) -/

namespace Sync

/-- `SYNC_CONFIG.DRIFT_TOLERANCE` (seconds). -/
def DRIFT_TOLERANCE : ℚ := 1/2

/-- `SYNC_CONFIG.DRIFT_SOFT_THRESHOLD` (seconds). -/
def DRIFT_SOFT_THRESHOLD : ℚ := 2

/-- `SYNC_CONFIG.DRIFT_HARD_THRESHOLD` (seconds). -/
def DRIFT_HARD_THRESHOLD : ℚ := 5

/-- `SYNC_CONFIG.RATE_SPEEDUP`. -/
def RATE_SPEEDUP : ℚ := 21/20

/-- `SYNC_CONFIG.RATE_SLOWDOWN`. -/
def RATE_SLOWDOWN : ℚ := 19/20

/-- `SYNC_CONFIG.RATE_NORMAL`. -/
def RATE_NORMAL : ℚ := 1

/-- `SYNC_CONFIG.RATE_ADJUSTMENT_DURATION` (ms). -/
def RATE_ADJUSTMENT_DURATION : ℚ := 3000

/-- `interface SyncState` (server snapshot handed to the client). -/
structure SyncState where
  isPlaying : Bool
  timestamp : ℚ
  serverTime : ℚ
deriving DecidableEq, Repr

/-- `type SyncStatus`. -/
inductive SyncStatus where
  | synced
  | adjusting
  | seeking
  | buffering
  | paused
deriving DecidableEq, Repr

/-- Effect of one `performSync` call on the video element. -/
structure SyncAction where
  /-- argument of the `onSyncStatus` callback -/
  status : SyncStatus
  /-- `video.currentTime` after the call -/
  newCurrentTime : ℚ
  /-- `video.playbackRate` after the call -/
  rate : ℚ
  /-- duration of the pending rate-reset timer, when one was armed -/
  rateResetAfterMs : Option ℚ
  /-- `some true` = `play()` issued, `some false` = `pause()` issued -/
  playPauseCmd : Option Bool
deriving DecidableEq, Repr

/-- Rate choice of `SyncManager.adjustPlaybackRate`: positive drift means the
local player is ahead, so slow down; negative means behind, so speed up. -/
def adjustPlaybackRate (drift : ℚ) : ℚ :=
  if drift > 0 then RATE_SLOWDOWN else RATE_SPEEDUP

/-- `SyncManager.performSync`, as a pure function of the remote snapshot, the
local `video.currentTime` / `video.paused`, and `Date.now()` (ms). -/
def performSync (state : SyncState) (localTime : ℚ) (localPaused : Bool)
    (nowMs : ℚ) : SyncAction :=
  let timeSinceServerUpdate := (nowMs - state.serverTime) / 1000
  let estimatedServerTime :=
    if state.isPlaying then state.timestamp + timeSinceServerUpdate
    else state.timestamp
  let drift := localTime - estimatedServerTime
  let absDrift := |drift|
  let playPauseCmd : Option Bool :=
    if state.isPlaying && localPaused then some true
    else if !state.isPlaying && !localPaused then some false
    else none
  if absDrift ≤ DRIFT_TOLERANCE then
    { status := .synced, newCurrentTime := localTime, rate := RATE_NORMAL,
      rateResetAfterMs := none, playPauseCmd := playPauseCmd }
  else if absDrift ≤ DRIFT_SOFT_THRESHOLD then
    { status := .adjusting, newCurrentTime := localTime,
      rate := adjustPlaybackRate drift,
      rateResetAfterMs := some RATE_ADJUSTMENT_DURATION,
      playPauseCmd := playPauseCmd }
  else if absDrift ≤ DRIFT_HARD_THRESHOLD then
    { status := .seeking, newCurrentTime := estimatedServerTime,
      rate := RATE_NORMAL, rateResetAfterMs := none,
      playPauseCmd := playPauseCmd }
  else
    { status := .seeking, newCurrentTime := estimatedServerTime,
      rate := RATE_NORMAL, rateResetAfterMs := none,
      playPauseCmd := playPauseCmd }

end Sync

/-! ### Association-list lemmas -/

theorem lookupA_setA_self {α : Type} (m : List (String × α)) (k : String)
    (v : α) : lookupA (setA m k v) k = some v := by
  induction m with
  | nil => simp [setA, lookupA]
  | cons p rest ih =>
    obtain ⟨k', v'⟩ := p
    by_cases h : k' = k
    · simp [setA, lookupA, h]
    · simp [setA, lookupA, h, ih]

theorem lookupA_setA_ne {α : Type} (m : List (String × α)) {k k' : String}
    (v : α) (h : k' ≠ k) : lookupA (setA m k v) k' = lookupA m k' := by
  induction m with
  | nil => simp [setA, lookupA, Ne.symm h]
  | cons p rest ih =>
    obtain ⟨k₀, v₀⟩ := p
    by_cases h₀ : k₀ = k
    · subst h₀
      simp [setA, lookupA, Ne.symm h]
    · simp only [setA, h₀, if_false, lookupA]
      by_cases h₁ : k₀ = k'
      · simp [h₁]
      · simp [h₁, ih]

theorem hasA_iff_mem_keysA {α : Type} (m : List (String × α)) (k : String) :
    hasA m k = true ↔ k ∈ keysA m := by
  induction m with
  | nil => simp [hasA, lookupA, keysA]
  | cons p rest ih =>
    obtain ⟨k', v'⟩ := p
    by_cases h : k' = k
    · simp [hasA, lookupA, keysA, h]
    · simpa [hasA, lookupA, keysA, h, Ne.symm h] using ih

theorem keysA_setA_of_has {α : Type} (m : List (String × α)) {k : String}
    (v : α) (h : hasA m k = true) : keysA (setA m k v) = keysA m := by
  induction m with
  | nil => simp [hasA, lookupA] at h
  | cons p rest ih =>
    obtain ⟨k', v'⟩ := p
    by_cases hk : k' = k
    · simp [setA, keysA, hk]
    · simp only [hasA, lookupA, hk, if_false] at h
      have hih := ih h
      simp only [keysA] at hih
      simp [setA, keysA, hk, hih]

theorem setA_of_not_has {α : Type} (m : List (String × α)) {k : String}
    (v : α) (h : hasA m k = false) : setA m k v = m ++ [(k, v)] := by
  induction m with
  | nil => simp [setA]
  | cons p rest ih =>
    obtain ⟨k', v'⟩ := p
    by_cases hk : k' = k
    · simp [hasA, lookupA, hk] at h
    · simp only [hasA, lookupA, hk, if_false] at h
      simp [setA, hk, ih h]

theorem eraseA_of_not_has {α : Type} (m : List (String × α)) {k : String}
    (h : hasA m k = false) : eraseA m k = m := by
  induction m with
  | nil => simp [eraseA]
  | cons p rest ih =>
    obtain ⟨k', v'⟩ := p
    by_cases hk : k' = k
    · simp [hasA, lookupA, hk] at h
    · simp only [hasA, lookupA, hk, if_false] at h
      simpa [eraseA, hk] using ih h

theorem lookupA_eraseA_self {α : Type} (m : List (String × α)) (k : String) :
    lookupA (eraseA m k) k = none := by
  induction m with
  | nil => simp [eraseA, lookupA]
  | cons p rest ih =>
    obtain ⟨k', v'⟩ := p
    by_cases hk : k' = k
    · simpa [eraseA, hk] using ih
    · simpa [eraseA, lookupA, hk] using ih

theorem lookupA_eraseA_ne {α : Type} (m : List (String × α)) {k k' : String}
    (h : k' ≠ k) : lookupA (eraseA m k) k' = lookupA m k' := by
  induction m with
  | nil => simp [eraseA]
  | cons p rest ih =>
    obtain ⟨k₀, v₀⟩ := p
    by_cases hk : k₀ = k
    · subst hk
      simpa [eraseA, lookupA, Ne.symm h] using ih
    · by_cases hk' : k₀ = k'
      · subst hk'
        simp [eraseA, lookupA, hk]
      · simpa [eraseA, lookupA, hk, hk'] using ih

theorem keysA_eraseA {α : Type} (m : List (String × α)) (k : String) :
    keysA (eraseA m k) = (keysA m).filter (fun id => id ≠ k) := by
  induction m with
  | nil => simp [eraseA, keysA]
  | cons p rest ih =>
    obtain ⟨k', v'⟩ := p
    by_cases hk : k' = k
    · simpa [eraseA, keysA, hk] using ih
    · simpa [eraseA, keysA, hk] using ih

theorem length_eraseA_of_has {α : Type} (m : List (String × α)) {k : String}
    (hd : (keysA m).Nodup) (h : hasA m k = true) :
    (eraseA m k).length + 1 = m.length := by
  induction m with
  | nil => simp [hasA, lookupA] at h
  | cons p rest ih =>
    obtain ⟨k', v'⟩ := p
    simp only [keysA, List.map_cons, List.nodup_cons] at hd
    by_cases hk : k' = k
    · subst hk
      have hcons : eraseA ((k', v') :: rest) k' = eraseA rest k' := by
        simp [eraseA]
      rw [hcons]
      have hrest : hasA rest k' = false := by
        cases hh : hasA rest k' with
        | false => rfl
        | true => exact absurd ((hasA_iff_mem_keysA rest k').mp hh) hd.1
      rw [eraseA_of_not_has rest hrest]
      simp
    · simp only [hasA, lookupA, hk, if_false] at h
      have hcons : eraseA ((k', v') :: rest) k = (k', v') :: eraseA rest k := by
        simp [eraseA, hk]
      rw [hcons]
      have hih := ih hd.2 h
      simp only [List.length_cons]
      omega

theorem keysA_nodup_setA {α : Type} (m : List (String × α)) (k : String)
    (v : α) (hd : (keysA m).Nodup) : (keysA (setA m k v)).Nodup := by
  by_cases h : hasA m k = true
  · rw [keysA_setA_of_has m v h]; exact hd
  · rw [setA_of_not_has m v (by simpa using h)]
    simp only [keysA, List.map_append, List.map_cons, List.map_nil]
    rw [List.nodup_append]
    refine ⟨hd, List.nodup_singleton k, ?_⟩
    intro a ha hb
    simp only [List.mem_singleton] at hb
    subst hb
    exact absurd ((hasA_iff_mem_keysA m a).mpr ha) (by simpa using h)

theorem keysA_nodup_eraseA {α : Type} (m : List (String × α)) (k : String)
    (hd : (keysA m).Nodup) : (keysA (eraseA m k)).Nodup := by
  rw [keysA_eraseA]
  exact hd.filter _

theorem ne_of_mem_keysA_eraseA {α : Type} {m : List (String × α)}
    {k a : String} (h : a ∈ keysA (eraseA m k)) : a ≠ k := by
  rw [keysA_eraseA] at h
  have := List.of_mem_filter h
  simpa using this

/-! ### Claim theorems -/

/-- C8: `updatePlayback` on an existing room always overwrites the stored
PlaybackState unconditionally (last-write-wins: the stored record is built
from the caller's isPlaying/timestamp alone, whatever was stored before),
with `updatedAt` taken from the authority's own clock (`now`) and never from
the caller's payload (the payload carries no clock field at all, and the
stored `updatedAt` equals the authority clock for every payload); the
platform falls back to the previous one when omitted; on an unknown room it
returns NotFound (`none`) and changes no state. -/
theorem C8_updatePlayback_unconditional_overwrite
    (st : ServerState) (roomId : String) (isPlaying : Bool) (timestamp : ℚ)
    (platform : Option StreamingPlatform) (now : Nat) :
    (lookupA st.rooms roomId = none →
      updatePlayback st roomId isPlaying timestamp platform now = (st, none)) ∧
    (∀ room, lookupA st.rooms roomId = some room →
      (updatePlayback st roomId isPlaying timestamp platform now).2 =
        some { isPlaying := isPlaying, timestamp := timestamp,
               updatedAt := now,
               platform := platform.getD room.playback.platform } ∧
      lookupA (updatePlayback st roomId isPlaying timestamp platform now).1.rooms
          roomId =
        some { room with
               playback := { isPlaying := isPlaying, timestamp := timestamp,
                             updatedAt := now,
                             platform := platform.getD room.playback.platform } } ∧
      (updatePlayback st roomId isPlaying timestamp platform now).1.socketToRoom
        = st.socketToRoom) := by
  constructor
  · intro h
    simp [updatePlayback, h]
  · intro room h
    refine ⟨by simp [updatePlayback, h], ?_, by simp [updatePlayback, h]⟩
    simp [updatePlayback, h, lookupA_setA_self]

/-- Witness for C8 at a concrete state: one room created at time 0, then a
playback write `{isPlaying := true, timestamp := 42}` at authority time 99.
The stored record has `updatedAt = 99`. -/
theorem C8_updatePlayback_unconditional_overwrite_witness :
    (updatePlayback (createRoom ServerState.init "R1" "h" "hu" none 0).1 "R1"
        true 42 none 99).2 =
      some { isPlaying := true, timestamp := 42, updatedAt := 99,
             platform := "unknown" } := by
  have h := (C8_updatePlayback_unconditional_overwrite
    (createRoom ServerState.init "R1" "h" "hu" none 0).1 "R1" true 42 none
    99).2 (createRoom ServerState.init "R1" "h" "hu" none 0).2 (by rfl)
  exact h.1

/-- C10: `leaveRoom` (also run by the disconnect handler) removes the
departing participant from the room's roster and from the
connection-to-room index, but leaves the surviving room's `adState`
untouched: the ad mapping (including the departing participant's entry, if
any) and the resume snapshot are unchanged. -/
theorem C10_leaveRoom_preserves_adState
    (st : ServerState) (socketId roomId : String) (room : RoomState)
    (h1 : lookupA st.socketToRoom socketId = some roomId)
    (h2 : lookupA st.rooms roomId = some room) :
    ∀ room', (leaveRoom st socketId).2 = some (roomId, some room') →
      room'.adState = room.adState ∧
      lookupA room'.participants socketId = none ∧
      lookupA (leaveRoom st socketId).1.socketToRoom socketId = none ∧
      lookupA (leaveRoom st socketId).1.rooms roomId = some room' ∧
      (hasA room.adState.usersInAd socketId = true →
        hasA room'.adState.usersInAd socketId = true) := by
  intro room' hres
  simp only [leaveRoom, h1, h2] at hres ⊢
  by_cases hhost : room.hostId = socketId
  · simp only [hhost, if_true] at hres ⊢
    cases hkeys : keysA (eraseA room.participants socketId) with
    | nil =>
      simp [hkeys] at hres
    | cons newHost restKeys =>
      have hne : newHost ≠ socketId :=
        ne_of_mem_keysA_eraseA (m := room.participants)
          (by rw [hkeys]; exact List.mem_cons_self _ _)
      simp only [hkeys] at hres ⊢
      cases hlk : lookupA (eraseA room.participants socketId) newHost with
      | none =>
        simp only [hlk, Option.some.injEq, Prod.mk.injEq, true_and] at hres ⊢
        subst hres
        refine ⟨rfl, lookupA_eraseA_self _ _, lookupA_eraseA_self _ _, ?_, fun h => h⟩
        simp [lookupA_setA_self]
      | some p =>
        simp only [hlk, Option.some.injEq, Prod.mk.injEq, true_and] at hres ⊢
        subst hres
        refine ⟨rfl, ?_, lookupA_eraseA_self _ _, ?_, fun h => h⟩
        · show lookupA (setA (eraseA room.participants socketId) newHost
            { p with isHost := true }) socketId = none
          rw [lookupA_setA_ne _ _ hne.symm]
          exact lookupA_eraseA_self _ _
        · simp [lookupA_setA_self]
  · simp only [hhost, if_false, Option.some.injEq, Prod.mk.injEq, true_and]
      at hres ⊢
    subst hres
    refine ⟨rfl, lookupA_eraseA_self _ _, lookupA_eraseA_self _ _, ?_, fun h => h⟩
    simp [lookupA_setA_self]

/-- Concrete server run for the C10 witness: host `h` creates room `R1`,
participant `a` joins, `a` enters an ad, then `a` leaves the room. -/
def W10st : ServerState :=
  (startAd
    (joinRoom (createRoom ServerState.init "R1" "h" "hu" none 0).1
      "R1" "a" "ua" .desktop none 1).1
    "R1" "a" "A" none 2).1

/-- The room of the C10 witness state before `a` leaves. -/
def W10room : RoomState :=
  (getRoom W10st "R1").getD (createRoom ServerState.init "Z" "z" "z" none 0).2

/-- The room of the C10 witness state after `a` leaves. -/
def W10room' : RoomState :=
  (((leaveRoom W10st "a").2.getD ("", none)).2).getD
    (createRoom ServerState.init "Z" "z" "z" none 0).2

/-- Witness for C10: participant `a` disconnects while inside an ad; the
surviving room's adState is unchanged and `a` is still in the ad mapping. -/
theorem C10_leaveRoom_preserves_adState_witness :
    hasA W10room.adState.usersInAd "a" = true ∧
    W10room'.adState = W10room.adState ∧
    lookupA W10room'.participants "a" = none ∧
    hasA W10room'.adState.usersInAd "a" = true := by
  have h := C10_leaveRoom_preserves_adState W10st "a" "R1" W10room
    (by decide) (by decide) W10room' (by decide)
  exact ⟨by decide, h.1, h.2.1, h.2.2.2.2 (by decide)⟩

/-- C4: on an existing room, `startAd` succeeds and the returned
`usersToPause` is exactly the set of current room participants that are
neither the caller nor present in the ad mapping after the caller has been
recorded; in particular it never contains the caller and never contains a
participant already present in the ad mapping. -/
theorem C4_usersToPause_characterization
    (st : ServerState) (roomId socketId displayName : String)
    (dur : Option Nat) (now : Nat) (room : RoomState)
    (h : lookupA st.rooms roomId = some room) :
    ∃ usersToPause isFirstAd room',
      (startAd st roomId socketId displayName dur now).2 =
        some (usersToPause, isFirstAd) ∧
      lookupA (startAd st roomId socketId displayName dur now).1.rooms roomId =
        some room' ∧
      hasA room'.adState.usersInAd socketId = true ∧
      (∀ id, id ∈ usersToPause ↔
        (id ∈ keysA room.participants ∧
         hasA room'.adState.usersInAd id = false ∧ id ≠ socketId)) ∧
      socketId ∉ usersToPause ∧
      (∀ id, hasA room.adState.usersInAd id = true → id ∉ usersToPause) := by
  simp only [startAd, h]
  refine ⟨_, _, _, rfl, lookupA_setA_self _ _ _, ?_, ?_, ?_, ?_⟩
  · simp [hasA, lookupA_setA_self]
  · intro id
    constructor
    · intro hmem
      have := List.mem_filter.mp hmem
      refine ⟨this.1, ?_, ?_⟩
      · have hb := this.2
        simp only [Bool.and_eq_true, Bool.not_eq_true', decide_eq_true_eq] at hb
        exact hb.1
      · have hb := this.2
        simp only [Bool.and_eq_true, Bool.not_eq_true', decide_eq_true_eq] at hb
        exact hb.2
    · intro ⟨hmem, hnot, hne⟩
      refine List.mem_filter.mpr ⟨hmem, ?_⟩
      simp only [Bool.and_eq_true, Bool.not_eq_true', decide_eq_true_eq]
      exact ⟨hnot, hne⟩
  · intro hmem
    have := (List.mem_filter.mp hmem).2
    simp only [Bool.and_eq_true, Bool.not_eq_true', decide_eq_true_eq] at this
    exact this.2 rfl
  · intro id hid hmem
    have := (List.mem_filter.mp hmem).2
    simp only [Bool.and_eq_true, Bool.not_eq_true', decide_eq_true_eq] at this
    have hkeys : hasA (setA
        (if room.adState.usersInAd.length = 0 then
          { room.adState with
            resumeTimestamp := room.playback.timestamp,
            resumeIsPlaying := room.playback.isPlaying }
         else room.adState).usersInAd socketId
        { oderId := socketId, displayName := displayName,
          estimatedDuration := dur, startedAt := now }) id = true := by
      by_cases hids : id = socketId
      · subst hids
        simp [hasA, lookupA_setA_self]
      · by_cases hfirst : room.adState.usersInAd.length = 0
        · simp only [hfirst, if_true]
          simp only [hasA] at hid ⊢
          rw [lookupA_setA_ne _ _ hids]
          exact hid
        · simp only [hfirst, if_false]
          simp only [hasA] at hid ⊢
          rw [lookupA_setA_ne _ _ hids]
          exact hid
    rw [this.1] at hkeys
    exact Bool.false_ne_true hkeys

/-- Witness for C4: in room `R1` (roster `h`, `a`, with `a` already in an
ad) a socket `b2` starts an ad; the returned `usersToPause` then contains
exactly the host `h`. -/
theorem C4_usersToPause_characterization_witness :
    ∃ usersToPause isFirstAd room',
      (startAd W10st "R1" "b2" "B2" none 3).2 = some (usersToPause, isFirstAd) ∧
      lookupA (startAd W10st "R1" "b2" "B2" none 3).1.rooms "R1" = some room' ∧
      hasA room'.adState.usersInAd "b2" = true ∧
      (∀ id, id ∈ usersToPause ↔
        (id ∈ keysA W10room.participants ∧
         hasA room'.adState.usersInAd id = false ∧ id ≠ "b2")) ∧
      "b2" ∉ usersToPause ∧
      (∀ id, hasA W10room.adState.usersInAd id = true → id ∉ usersToPause) :=
  C4_usersToPause_characterization W10st "R1" "b2" "B2" none 3 W10room
    (by decide)

/-- Successive `endAd` calls for the given socket ids, collecting the
`allClear` flag of each call (the sequence of `exitAd` results). -/
def runExits (st : ServerState) (roomId : String) :
    List String → List Bool
  | [] => []
  | id :: rest =>
    let r := endAd st roomId id
    match r.2 with
    | none => []
    | some (allClear, _, _) => allClear :: runExits r.1 roomId rest

/-- After `endAd`, the room is stored with the caller erased from the ad
mapping and nothing else changed. -/
theorem endAd_lookup (st : ServerState) (roomId socketId : String)
    (room : RoomState) (h : lookupA st.rooms roomId = some room) :
    lookupA (endAd st roomId socketId).1.rooms roomId =
      some { room with adState := { room.adState with
        usersInAd := eraseA room.adState.usersInAd socketId } } := by
  simp only [endAd, h]
  exact lookupA_setA_self _ _ _

theorem filter_bne_eq_filter_ne (l : List String) (a : String) :
    l.filter (fun x => x != a) = l.filter (fun x => x ≠ a) := by
  induction l with
  | nil => rfl
  | cons x rest ih =>
    by_cases hx : x = a
    · simp [List.filter_cons, hx, ih]
    · simp [List.filter_cons, hx, ih]

theorem runExits_cons (st : ServerState) (roomId id : String)
    (rest : List String) {b : Bool} {x : ℚ} {y : Bool}
    (h : (endAd st roomId id).2 = some (b, x, y)) :
    runExits st roomId (id :: rest) =
      b :: runExits (endAd st roomId id).1 roomId rest := by
  simp [runExits, h]

/-- Exiting every current member of the ad mapping, in any order, yields
`allClear = false` on every call but the last, and `true` on the last. -/
theorem runExits_perm_keys (ids : List String) :
    ∀ (st : ServerState) (roomId : String) (room : RoomState),
    lookupA st.rooms roomId = some room →
    (keysA room.adState.usersInAd).Nodup →
    ids.Perm (keysA room.adState.usersInAd) →
    runExits st roomId ids =
      List.replicate (ids.length - 1) false ++
        (if ids = [] then [] else [true]) := by
  induction ids with
  | nil => intro st roomId room h hd hperm; simp [runExits]
  | cons id rest ih =>
    intro st roomId room h hd hperm
    have hrest : rest.Perm ((keysA room.adState.usersInAd).erase id) :=
      (List.cons_perm_iff_perm_erase.mp hperm).2
    have hkeys' : keysA (eraseA room.adState.usersInAd id) =
        (keysA room.adState.usersInAd).erase id := by
      rw [List.Nodup.erase_eq_filter hd, keysA_eraseA,
        ← filter_bne_eq_filter_ne]
    have hlook := endAd_lookup st roomId id room h
    have hAC : (endAd st roomId id).2 =
        some (decide ((eraseA room.adState.usersInAd id).length = 0),
          room.adState.resumeTimestamp, room.adState.resumeIsPlaying) := by
      simp [endAd, h]
    cases rest with
    | nil =>
      have hkeysE : keysA (eraseA room.adState.usersInAd id) = [] := by
        rw [hkeys']
        exact hrest.symm.eq_nil
      have hempty : eraseA room.adState.usersInAd id = [] := by
        cases hE : eraseA room.adState.usersInAd id with
        | nil => rfl
        | cons p rest' =>
          rw [hE] at hkeysE
          simp [keysA] at hkeysE
      rw [runExits_cons st roomId id [] hAC]
      simp [hempty, runExits]
    | cons id2 rest2 =>
      have hkeysNE : (keysA room.adState.usersInAd).erase id ≠ [] := by
        intro hE
        rw [hE] at hrest
        exact absurd hrest.eq_nil (by simp)
      have hne : eraseA room.adState.usersInAd id ≠ [] := by
        intro hE
        apply hkeysNE
        rw [← hkeys', hE]
        rfl
      have hlen : ¬ (eraseA room.adState.usersInAd id).length = 0 := by
        simpa [List.length_eq_zero] using hne
      have hstep := ih (endAd st roomId id).1 roomId
        { room with adState := { room.adState with
            usersInAd := eraseA room.adState.usersInAd id } }
        hlook
        (by
          show (keysA (eraseA room.adState.usersInAd id)).Nodup
          exact keysA_nodup_eraseA _ _ hd)
        (by
          show (id2 :: rest2).Perm (keysA (eraseA room.adState.usersInAd id))
          rw [hkeys']
          exact hrest)
      rw [runExits_cons st roomId id (id2 :: rest2) hAC, hstep]
      simp [hlen, List.replicate_succ]

/-- C2: `endAd` on an existing room never errors; removing an absent
participant is a no-op on the mapping; the returned `allClear` is true iff
the ad mapping is empty after the removal (in particular an `exitAd` on an
already-empty mapping reports `allClear = true`); the resume fields are the
stored snapshot; and exiting the N current ad-watchers in any order yields
`allClear = false` on each of the first N−1 calls and `true` exactly on the
Nth. -/
theorem C2_endAd_allClear_iff_empty
    (st : ServerState) (roomId socketId : String) (room : RoomState)
    (h : lookupA st.rooms roomId = some room) :
    ∃ allClear rTs rIp,
      (endAd st roomId socketId).2 = some (allClear, rTs, rIp) ∧
      (allClear = true ↔ eraseA room.adState.usersInAd socketId = []) ∧
      (hasA room.adState.usersInAd socketId = false →
        eraseA room.adState.usersInAd socketId = room.adState.usersInAd) ∧
      (room.adState.usersInAd = [] → allClear = true) ∧
      rTs = room.adState.resumeTimestamp ∧
      rIp = room.adState.resumeIsPlaying ∧
      (∀ ids : List String,
        (keysA room.adState.usersInAd).Nodup →
        ids.Perm (keysA room.adState.usersInAd) →
        runExits st roomId ids =
          List.replicate (ids.length - 1) false ++
            (if ids = [] then [] else [true])) := by
  refine ⟨decide ((eraseA room.adState.usersInAd socketId).length = 0),
    room.adState.resumeTimestamp, room.adState.resumeIsPlaying, ?_, ?_, ?_,
    ?_, rfl, rfl, ?_⟩
  · simp [endAd, h]
  · simp [List.length_eq_zero]
  · intro hno
    exact eraseA_of_not_has _ hno
  · intro hempty
    simp [hempty, eraseA]
  · intro ids hd hperm
    exact runExits_perm_keys ids st roomId room h hd hperm

/-- Concrete run for the C2 witness: room `R1` with roster `h`, `a`, `b`;
both `a` and `b` are inside ads. -/
def W2st : ServerState :=
  (startAd
    (startAd
      (joinRoom
        (joinRoom (createRoom ServerState.init "R1" "h" "hu" none 0).1
          "R1" "a" "ua" .desktop none 1).1
        "R1" "b" "ub" .desktop none 2).1
      "R1" "a" "A" none 3).1
    "R1" "b" "B" none 4).1

/-- The room of the C2 witness state. -/
def W2room : RoomState :=
  (getRoom W2st "R1").getD (createRoom ServerState.init "Z" "z" "z" none 0).2

/-- Witness for C2: exiting the two ad-watchers `b` then `a` yields
`allClear = [false, true]`, and an `exitAd` for a socket that never entered
an ad leaves the mapping untouched. -/
theorem C2_endAd_allClear_iff_empty_witness :
    runExits W2st "R1" ["b", "a"] = [false, true] ∧
    eraseA W2room.adState.usersInAd "zz" = W2room.adState.usersInAd := by
  obtain ⟨allClear, rTs, rIp, hres, hiff, hnoop, hempty, hts, hip, hrun⟩ :=
    C2_endAd_allClear_iff_empty W2st "R1" "zz" W2room (by decide)
  refine ⟨?_, hnoop (by decide)⟩
  have h := hrun ["b", "a"] (by decide) (by decide)
  simpa using h

/-- C9: an `ad_finished` event for a participant of a room whose ad mapping
is already empty makes `endAd` report `allClear = true`, and the handler
broadcasts `resume_all` to the entire room carrying whatever resume fields
are stored (the leftovers of the previous episode); a room that never had an
episode stores timestamp 0 and isPlaying false, so a spurious `ad_finished`
directs every participant to seek to that stale or zero position. -/
theorem C9_spurious_adFinished_broadcasts_stale_resume
    (st : ServerState) (socketId roomId : String) (room : RoomState)
    (h1 : lookupA st.socketToRoom socketId = some roomId)
    (h2 : lookupA st.rooms roomId = some room)
    (hrid : room.roomId = roomId)
    (hempty : room.adState.usersInAd = []) :
    (endAd st roomId socketId).2 =
      some (true, room.adState.resumeTimestamp, room.adState.resumeIsPlaying) ∧
    (handleAdFinished st socketId).2 =
      [Emission.resumeAll (keysA room.participants)
        room.adState.resumeTimestamp room.adState.resumeIsPlaying,
       Emission.adStateUpdate
        ((keysA room.participants).filter (fun id => id ≠ socketId)) []] ∧
    (∀ (st0 : ServerState) (rid hs hu : String) (dn : Option String) (n0 : Nat),
      ((createRoom st0 rid hs hu dn n0).2).adState =
        { usersInAd := [], resumeTimestamp := 0, resumeIsPlaying := false }) := by
  have herase : eraseA room.adState.usersInAd socketId = [] := by
    rw [hempty]; rfl
  refine ⟨?_, ?_, ?_⟩
  · simp [endAd, h2, herase]
  · simp only [handleAdFinished, getRoomBySocket, h1, h2, hrid]
    simp only [endAd, h2, herase]
    simp only [List.length_nil, decide_True]
    simp [getAdUsers, lookupA_setA_self, valuesA]
  · intro st0 rid hs hu dn n0
    rfl

/-- Concrete state for the C9 witness: a fresh room `R1` with roster
`h`, `a` and no ad episode ever started. -/
def W9st : ServerState :=
  (joinRoom (createRoom ServerState.init "R1" "h" "hu" none 0).1
    "R1" "a" "ua" .desktop none 1).1

/-- The room of the C9 witness state. -/
def W9room : RoomState :=
  (getRoom W9st "R1").getD (createRoom ServerState.init "Z" "z" "z" none 0).2

/-- Witness for C9: a spurious `ad_finished` from `a` in the fresh room
broadcasts `resume_all {timestamp := 0, isPlaying := false}` to `h` and `a`. -/
theorem C9_spurious_adFinished_broadcasts_stale_resume_witness :
    (handleAdFinished W9st "a").2 =
      [Emission.resumeAll ["h", "a"] 0 false,
       Emission.adStateUpdate ["h"] []] := by
  have h := C9_spurious_adFinished_broadcasts_stale_resume W9st "a" "R1" W9room
    (by decide) (by decide) (by decide) (by decide)
  have h2 := h.2.1
  rw [h2]
  decide

/-- Concrete run for C5: host `h` creates room `R1` and enters an ad at
time 100, then calls `startAd` again at time 200 while still mapped. -/
def W5st1 : ServerState :=
  (startAd (createRoom ServerState.init "R1" "h" "hu" none 0).1
    "R1" "h" "H" none 100).1

/-- The same run after the re-entry call at time 200. -/
def W5st2 : ServerState := (startAd W5st1 "R1" "h" "H" none 200).1

/-- The ad-mapping entry of `h` after the re-entry. -/
def W5entry (st : ServerState) : Option AdUserInfo :=
  lookupA ((getRoom st "R1").getD
    (createRoom ServerState.init "Z" "z" "z" none 0).2).adState.usersInAd "h"

/-- Counterexample to C5 as stated: the claim says an idempotent re-entry
does not reset the stored `startedAt`, but `startAd` overwrites the entry
with `startedAt = Date.now()` of the second call: after entering at time 100
and re-entering at time 200, the stored `startedAt` is 200, not 100. -/
theorem C5_counterexample_startedAt_reset :
    (W5entry W5st1).map AdUserInfo.startedAt = some 100 ∧
    (W5entry W5st2).map AdUserInfo.startedAt = some 200 ∧
    (200 : Nat) ≠ 100 := by
  decide

/-- C5 (amended): a `startAd` call by a participant already present in the
ad mapping is not first-in-episode, leaves the resume snapshot untouched,
overwrites the participant's entry in place — resetting `startedAt` to the
time of the re-entry call and keeping the mapping's key set unchanged (no
duplicate entry) — and returns the same `usersToPause` computation as any
entry would at that mapping state (participants that are neither in the
mapping nor the caller). -/
theorem C5_reentry_overwrites_entry
    (st : ServerState) (roomId socketId displayName : String)
    (dur : Option Nat) (now : Nat) (room : RoomState) (p : AdUserInfo)
    (h : lookupA st.rooms roomId = some room)
    (hmem : lookupA room.adState.usersInAd socketId = some p) :
    ∃ usersToPause isFirstAd room',
      (startAd st roomId socketId displayName dur now).2 =
        some (usersToPause, isFirstAd) ∧
      isFirstAd = false ∧
      lookupA (startAd st roomId socketId displayName dur now).1.rooms roomId =
        some room' ∧
      room'.adState.resumeTimestamp = room.adState.resumeTimestamp ∧
      room'.adState.resumeIsPlaying = room.adState.resumeIsPlaying ∧
      keysA room'.adState.usersInAd = keysA room.adState.usersInAd ∧
      lookupA room'.adState.usersInAd socketId =
        some { oderId := socketId, displayName := displayName,
               estimatedDuration := dur, startedAt := now } ∧
      usersToPause = (keysA room.participants).filter
        (fun id => !(hasA room'.adState.usersInAd id) && id ≠ socketId) := by
  have hne : room.adState.usersInAd ≠ [] := by
    intro hE
    rw [hE] at hmem
    exact Option.noConfusion hmem
  have hlen : ¬ room.adState.usersInAd.length = 0 := by
    simpa [List.length_eq_zero] using hne
  have hhas : hasA room.adState.usersInAd socketId = true := by
    simp [hasA, hmem]
  simp only [startAd, h, hlen, if_false]
  refine ⟨_, _, _, rfl, by simp [hlen], lookupA_setA_self _ _ _, rfl, rfl,
    ?_, ?_, ?_⟩
  · exact keysA_setA_of_has _ _ hhas
  · exact lookupA_setA_self _ _ _
  · rfl

/-- Witness for C5 (amended) at the concrete run: after the re-entry, the
mapping still has the single key `h`, `isFirstAd` is false, and the resume
snapshot is unchanged. -/
theorem C5_reentry_overwrites_entry_witness :
    ∃ usersToPause isFirstAd room',
      (startAd W5st1 "R1" "h" "H" none 200).2 = some (usersToPause, isFirstAd) ∧
      isFirstAd = false ∧
      lookupA (startAd W5st1 "R1" "h" "H" none 200).1.rooms "R1" = some room' ∧
      room'.adState.resumeTimestamp =
        ((getRoom W5st1 "R1").getD
          (createRoom ServerState.init "Z" "z" "z" none 0).2).adState.resumeTimestamp ∧
      room'.adState.resumeIsPlaying =
        ((getRoom W5st1 "R1").getD
          (createRoom ServerState.init "Z" "z" "z" none 0).2).adState.resumeIsPlaying ∧
      keysA room'.adState.usersInAd =
        keysA ((getRoom W5st1 "R1").getD
          (createRoom ServerState.init "Z" "z" "z" none 0).2).adState.usersInAd ∧
      lookupA room'.adState.usersInAd "h" =
        some { oderId := "h", displayName := "H",
               estimatedDuration := none, startedAt := 200 } ∧
      usersToPause = (keysA ((getRoom W5st1 "R1").getD
          (createRoom ServerState.init "Z" "z" "z" none 0).2).participants).filter
        (fun id => !(hasA room'.adState.usersInAd id) && id ≠ "h") :=
  C5_reentry_overwrites_entry W5st1 "R1" "h" "H" none 200
    ((getRoom W5st1 "R1").getD (createRoom ServerState.init "Z" "z" "z" none 0).2)
    { oderId := "h", displayName := "H", estimatedDuration := none,
      startedAt := 100 }
    (by decide) (by decide)

/-! ### Ad-episode operation sequences (for the resume-snapshot invariant) -/

/-- An operation that may occur during an ad episode with no intervening
`exitAd`: a playback write or an `enterAd` call on the same room. -/
inductive EpOp where
  | upd (isPlaying : Bool) (timestamp : ℚ) (platform : Option StreamingPlatform)
      (now : Nat)
  | start (socketId displayName : String) (dur : Option Nat) (now : Nat)

/-- Apply one episode operation to the server, discarding the reply. -/
def applyEpOp (st : ServerState) (roomId : String) : EpOp → ServerState
  | .upd p t pf n => (updatePlayback st roomId p t pf n).1
  | .start s d dur n => (startAd st roomId s d dur n).1

/-- Apply a sequence of episode operations. -/
def applyEpOps (st : ServerState) (roomId : String) : List EpOp → ServerState
  | [] => st
  | op :: rest => applyEpOps (applyEpOp st roomId op) roomId rest

theorem applyEpOps_append (l1 l2 : List EpOp) :
    ∀ st roomId, applyEpOps st roomId (l1 ++ l2) =
      applyEpOps (applyEpOps st roomId l1) roomId l2 := by
  induction l1 with
  | nil => intro st roomId; rfl
  | cons op rest ih =>
    intro st roomId
    simp only [List.cons_append, applyEpOps]
    exact ih (applyEpOp st roomId op) roomId

theorem setA_ne_nil {α : Type} (m : List (String × α)) (k : String) (v : α) :
    setA m k v ≠ [] := by
  cases m with
  | nil => simp [setA]
  | cons p rest =>
    obtain ⟨k', v'⟩ := p
    by_cases h : k' = k
    · simp [setA, h]
    · simp [setA, h]

/-- Playback-only operation sequences keep the room stored and its adState
bitwise unchanged. -/
theorem applyEpOps_upd_only (pre : List EpOp) :
    ∀ (st : ServerState) (roomId : String) (room : RoomState),
    (∀ op ∈ pre, ∃ p t pf n, op = EpOp.upd p t pf n) →
    lookupA st.rooms roomId = some room →
    ∃ roomPre, lookupA (applyEpOps st roomId pre).rooms roomId = some roomPre ∧
      roomPre.adState = room.adState := by
  induction pre with
  | nil => intro st roomId room _ h; exact ⟨room, h, rfl⟩
  | cons op rest ih =>
    intro st roomId room hupd h
    obtain ⟨p, t, pf, n, rfl⟩ := hupd op (List.mem_cons_self _ _)
    have hnext : lookupA (applyEpOp st roomId (EpOp.upd p t pf n)).rooms roomId
        = some { room with playback :=
          { isPlaying := p, timestamp := t, updatedAt := n,
            platform := pf.getD room.playback.platform } } := by
      simp only [applyEpOp, updatePlayback, h]
      exact lookupA_setA_self _ _ _
    obtain ⟨roomPre, hlk, had⟩ := ih (applyEpOp st roomId (EpOp.upd p t pf n))
      roomId _ (fun op' hop' => hupd op' (List.mem_cons_of_mem _ hop')) hnext
    exact ⟨roomPre, hlk, had⟩

/-- Once the ad mapping is non-empty, any further playback writes and
`enterAd` calls keep it non-empty and leave the resume snapshot unchanged. -/
theorem applyEpOps_preserves_resume (ops : List EpOp) :
    ∀ (st : ServerState) (roomId : String) (roomC : RoomState),
    lookupA st.rooms roomId = some roomC →
    roomC.adState.usersInAd ≠ [] →
    ∃ roomF, lookupA (applyEpOps st roomId ops).rooms roomId = some roomF ∧
      roomF.adState.usersInAd ≠ [] ∧
      roomF.adState.resumeTimestamp = roomC.adState.resumeTimestamp ∧
      roomF.adState.resumeIsPlaying = roomC.adState.resumeIsPlaying := by
  induction ops with
  | nil => intro st roomId roomC h hne; exact ⟨roomC, h, hne, rfl, rfl⟩
  | cons op rest ih =>
    intro st roomId roomC h hne
    cases op with
    | upd p t pf n =>
      have hnext : lookupA (applyEpOp st roomId (EpOp.upd p t pf n)).rooms
          roomId = some { roomC with playback :=
            { isPlaying := p, timestamp := t, updatedAt := n,
              platform := pf.getD roomC.playback.platform } } := by
        simp only [applyEpOp, updatePlayback, h]
        exact lookupA_setA_self _ _ _
      obtain ⟨roomF, hlk, hne', hts, hip⟩ := ih _ roomId _ hnext hne
      exact ⟨roomF, hlk, hne', hts, hip⟩
    | start s d dur n =>
      have hlen : ¬ roomC.adState.usersInAd.length = 0 := by
        simpa [List.length_eq_zero] using hne
      have hnext : lookupA (applyEpOp st roomId (EpOp.start s d dur n)).rooms
          roomId = some { roomC with adState := { roomC.adState with
            usersInAd := setA roomC.adState.usersInAd s
              { oderId := s, displayName := d, estimatedDuration := dur,
                startedAt := n } } } := by
        simp only [applyEpOp, startAd, h, hlen, if_false]
        exact lookupA_setA_self _ _ _
      obtain ⟨roomF, hlk, hne', hts, hip⟩ := ih _ roomId _ hnext
        (setA_ne_nil _ _ _)
      exact ⟨roomF, hlk, hne', hts, hip⟩

/-- C1: starting from a room whose ad mapping is empty, run any sequence of
playback writes followed by a first `enterAd` call and then any further mix
of playback writes and `enterAd` calls (no `exitAd`).  The stored resume
snapshot after the whole sequence equals the room's PlaybackState (timestamp
and isPlaying) at the moment of the first `enterAd` call, and the mapping
stays non-empty: the snapshot is written exactly at the empty→non-empty
transition and never overwritten while the mapping remains non-empty. -/
theorem C1_resume_snapshot_first_enterAd
    (st : ServerState) (roomId : String) (room : RoomState)
    (h : lookupA st.rooms roomId = some room)
    (hempty : room.adState.usersInAd = [])
    (pre : List EpOp)
    (hpre : ∀ op ∈ pre, ∃ p t pf n, op = EpOp.upd p t pf n)
    (s dn : String) (dur : Option Nat) (n : Nat) (rest : List EpOp) :
    ∃ roomPre roomF,
      lookupA (applyEpOps st roomId pre).rooms roomId = some roomPre ∧
      roomPre.adState.usersInAd = [] ∧
      lookupA (applyEpOps st roomId
          (pre ++ EpOp.start s dn dur n :: rest)).rooms roomId = some roomF ∧
      roomF.adState.usersInAd ≠ [] ∧
      roomF.adState.resumeTimestamp = roomPre.playback.timestamp ∧
      roomF.adState.resumeIsPlaying = roomPre.playback.isPlaying := by
  obtain ⟨roomPre, hlkPre, hadPre⟩ := applyEpOps_upd_only pre st roomId room
    hpre h
  have hemptyPre : roomPre.adState.usersInAd = [] := by
    rw [hadPre, hempty]
  have hlenPre : roomPre.adState.usersInAd.length = 0 := by
    rw [hemptyPre]; rfl
  have hstart : lookupA (applyEpOp (applyEpOps st roomId pre) roomId
      (EpOp.start s dn dur n)).rooms roomId =
      some { roomPre with adState :=
        { usersInAd := setA roomPre.adState.usersInAd s
            { oderId := s, displayName := dn, estimatedDuration := dur,
              startedAt := n },
          resumeTimestamp := roomPre.playback.timestamp,
          resumeIsPlaying := roomPre.playback.isPlaying } } := by
    simp only [applyEpOp, startAd, hlkPre, hlenPre, if_true]
    exact lookupA_setA_self _ _ _
  obtain ⟨roomF, hlkF, hneF, htsF, hipF⟩ := applyEpOps_preserves_resume rest
    _ roomId _ hstart (setA_ne_nil _ _ _)
  refine ⟨roomPre, roomF, hlkPre, hemptyPre, ?_, hneF, htsF, hipF⟩
  rw [applyEpOps_append]
  show lookupA (applyEpOps (applyEpOps (applyEpOps st roomId pre) roomId
    [EpOp.start s dn dur n]) roomId rest).rooms roomId = some roomF
  exact hlkF

/-- Witness for C1: playback is written to `{isPlaying := true, 50}`, then
`a` enters an ad, playback is written to 99 and `b` also enters; the stored
resume snapshot is still `{50, true}`. -/
theorem C1_resume_snapshot_first_enterAd_witness :
    ∃ roomPre roomF,
      lookupA (applyEpOps W9st "R1"
        [EpOp.upd true 50 none 10]).rooms "R1" = some roomPre ∧
      roomPre.adState.usersInAd = [] ∧
      lookupA (applyEpOps W9st "R1"
        ([EpOp.upd true 50 none 10] ++ EpOp.start "a" "A" none 11 ::
          [EpOp.upd true 99 none 12, EpOp.start "h" "H" none 13])).rooms "R1"
        = some roomF ∧
      roomF.adState.usersInAd ≠ [] ∧
      roomF.adState.resumeTimestamp = roomPre.playback.timestamp ∧
      roomF.adState.resumeIsPlaying = roomPre.playback.isPlaying :=
  C1_resume_snapshot_first_enterAd W9st "R1" W9room (by decide) (by decide)
    [EpOp.upd true 50 none 10]
    (by
      intro op hop
      simp only [List.mem_singleton] at hop
      exact ⟨true, 50, none, 10, hop⟩)
    "a" "A" none 11 [EpOp.upd true 99 none 12, EpOp.start "h" "H" none 13]

/-- C7: one reconciliation attempt.  The expected position is the remote
position plus wall-clock seconds elapsed since `observedAt` when the remote
is playing, the remote position unchanged otherwise; with
`drift = localPosition − expectedPosition`: `|drift| ≤ 0.5` gives no
correction (status synced, rate normal, no seek); `0.5 < |drift| ≤ 2` gives
a temporary rate offset — slower than normal when drift is positive (ahead),
faster when negative (behind) — armed to reset after a bounded duration
(status adjusting, no seek); and `|drift| > 2`, however large, gives a hard
seek to the expected position with the rate reset to normal (status
seeking). -/
theorem C7_drift_policy (state : Sync.SyncState) (localTime : ℚ)
    (localPaused : Bool) (nowMs : ℚ) :
    (|localTime - (if state.isPlaying then
        state.timestamp + (nowMs - state.serverTime) / 1000
        else state.timestamp)| ≤ 1/2 →
      (Sync.performSync state localTime localPaused nowMs).status = .synced ∧
      (Sync.performSync state localTime localPaused nowMs).newCurrentTime
        = localTime ∧
      (Sync.performSync state localTime localPaused nowMs).rate = 1 ∧
      (Sync.performSync state localTime localPaused nowMs).rateResetAfterMs
        = none) ∧
    (1/2 < |localTime - (if state.isPlaying then
        state.timestamp + (nowMs - state.serverTime) / 1000
        else state.timestamp)| →
     |localTime - (if state.isPlaying then
        state.timestamp + (nowMs - state.serverTime) / 1000
        else state.timestamp)| ≤ 2 →
      (Sync.performSync state localTime localPaused nowMs).status
        = .adjusting ∧
      (Sync.performSync state localTime localPaused nowMs).newCurrentTime
        = localTime ∧
      (0 < localTime - (if state.isPlaying then
          state.timestamp + (nowMs - state.serverTime) / 1000
          else state.timestamp) →
        (Sync.performSync state localTime localPaused nowMs).rate = 19/20) ∧
      (localTime - (if state.isPlaying then
          state.timestamp + (nowMs - state.serverTime) / 1000
          else state.timestamp) < 0 →
        (Sync.performSync state localTime localPaused nowMs).rate = 21/20) ∧
      (19/20 : ℚ) < 1 ∧ (1 : ℚ) < 21/20 ∧
      (Sync.performSync state localTime localPaused nowMs).rateResetAfterMs
        = some 3000) ∧
    (2 < |localTime - (if state.isPlaying then
        state.timestamp + (nowMs - state.serverTime) / 1000
        else state.timestamp)| →
      (Sync.performSync state localTime localPaused nowMs).status = .seeking ∧
      (Sync.performSync state localTime localPaused nowMs).newCurrentTime
        = (if state.isPlaying then
            state.timestamp + (nowMs - state.serverTime) / 1000
            else state.timestamp) ∧
      (Sync.performSync state localTime localPaused nowMs).rate = 1) := by
  set expected : ℚ := if state.isPlaying then
    state.timestamp + (nowMs - state.serverTime) / 1000
    else state.timestamp with hexp
  set drift : ℚ := localTime - expected with hdrift
  refine ⟨?_, ?_, ?_⟩
  · intro htol
    have : |drift| ≤ Sync.DRIFT_TOLERANCE := htol
    simp [Sync.performSync, ← hexp, ← hdrift, this, Sync.RATE_NORMAL]
  · intro hlo hhi
    have h1 : ¬ |drift| ≤ Sync.DRIFT_TOLERANCE := by
      simp only [Sync.DRIFT_TOLERANCE]
      exact not_le.mpr hlo
    have h2 : |drift| ≤ Sync.DRIFT_SOFT_THRESHOLD := hhi
    refine ⟨?_, ?_, ?_, ?_, by norm_num, by norm_num, ?_⟩
    · simp [Sync.performSync, ← hexp, ← hdrift, h1, h2]
    · simp [Sync.performSync, ← hexp, ← hdrift, h1, h2]
    · intro hpos
      simp [Sync.performSync, ← hexp, ← hdrift, h1, h2,
        Sync.adjustPlaybackRate, hpos, Sync.RATE_SLOWDOWN]
    · intro hneg
      have : ¬ (0 : ℚ) < drift := by linarith
      simp [Sync.performSync, ← hexp, ← hdrift, h1, h2,
        Sync.adjustPlaybackRate, this, Sync.RATE_SPEEDUP]
    · simp [Sync.performSync, ← hexp, ← hdrift, h1, h2,
        Sync.RATE_ADJUSTMENT_DURATION]
  · intro hbig
    have h1 : ¬ |drift| ≤ Sync.DRIFT_TOLERANCE := by
      simp only [Sync.DRIFT_TOLERANCE]
      intro hc
      have : (1/2 : ℚ) < 2 := by norm_num
      linarith
    have h2 : ¬ |drift| ≤ Sync.DRIFT_SOFT_THRESHOLD := by
      simp only [Sync.DRIFT_SOFT_THRESHOLD]
      exact not_le.mpr hbig
    by_cases h3 : |drift| ≤ Sync.DRIFT_HARD_THRESHOLD
    · constructor
      · simp [Sync.performSync, ← hexp, ← hdrift, h1, h2, h3]
      constructor
      · simp [Sync.performSync, ← hexp, ← hdrift, h1, h2, h3]
      · simp [Sync.performSync, ← hexp, ← hdrift, h1, h2, h3,
          Sync.RATE_NORMAL]
    · constructor
      · simp [Sync.performSync, ← hexp, ← hdrift, h1, h2, h3]
      constructor
      · simp [Sync.performSync, ← hexp, ← hdrift, h1, h2, h3]
      · simp [Sync.performSync, ← hexp, ← hdrift, h1, h2, h3,
          Sync.RATE_NORMAL]

/-- Witness for C7, the spec's own example: remote
`{isPlaying := true, position := 100, observedAt := T}` and local position
103 evaluated 1 s later — expected 101, drift 2, soft band: rate adjustment
(slow-down), not a hard seek. -/
theorem C7_drift_policy_witness :
    (Sync.performSync { isPlaying := true, timestamp := 100, serverTime := 0 }
      103 false 1000).status = .adjusting ∧
    (Sync.performSync { isPlaying := true, timestamp := 100, serverTime := 0 }
      103 false 1000).newCurrentTime = 103 ∧
    (Sync.performSync { isPlaying := true, timestamp := 100, serverTime := 0 }
      103 false 1000).rate = 19/20 := by
  have h := (C7_drift_policy
    { isPlaying := true, timestamp := 100, serverTime := 0 } 103 false
    1000).2.1 (by norm_num) (by norm_num)
  exact ⟨h.1, h.2.1, h.2.2.1 (by norm_num)⟩

/-! ### The Host/A/B two-ad scenario -/

/-- Sockets that receive a `pause_for_ad` directive, in emission order. -/
def pauseRecipients (es : List Emission) : List String :=
  es.filterMap (fun e => match e with
    | .pauseForAd toSocket _ _ => some toSocket
    | _ => none)

/-- Host creates room `R1`, `a` and `b` join, playback is set to
`{isPlaying := true, timestamp := 120}`. -/
def S3st : ServerState :=
  (updatePlayback
    (joinRoom
      (joinRoom (createRoom ServerState.init "R1" "host" "uh" (some "Host") 0).1
        "R1" "a" "ua" .desktop (some "A") 1).1
      "R1" "b" "ub" .desktop (some "B") 2).1
    "R1" true 120 none 3).1

/-- `a` reports `ad_started`. -/
def S3A : ServerState × List Emission := handleAdStarted S3st "a" none 4

/-- then `b` reports `ad_started`. -/
def S3B : ServerState × List Emission := handleAdStarted S3A.1 "b" none 5

/-- then `a` reports `ad_finished` first. -/
def S3exitA : ServerState × List Emission := handleAdFinished S3B.1 "a"

/-- finally `b` reports `ad_finished`. -/
def S3exitB : ServerState × List Emission := handleAdFinished S3exitA.1 "b"

/-- Counterexample to C3 as stated: the claim says that when A enters the
ad, only Host is told to pause — but in the run the `pause_for_ad`
recipients of A's entry are Host *and* B (B is not yet inside an ad, so the
code pauses B as well). -/
theorem C3_counterexample_B_also_paused :
    pauseRecipients S3A.2 = ["host", "b"] ∧
    "b" ∈ pauseRecipients S3A.2 ∧
    (["host", "b"] : List String) ≠ ["host"] := by
  decide

/-- C3 (amended): in the Host/A/B scenario with playback at
`{isPlaying := true, timestamp := 120}`: when A enters, Host *and* B are
told to pause (B is not yet in an ad); when B enters, no ad-watching
participant is told to pause — neither A nor B receives a pause directive,
only the ad-free Host receives another one; when A exits first,
`allClear = false` (A is told to keep waiting at the frozen position 120);
when B exits, `allClear = true` and `resume_all {timestamp := 120,
isPlaying := true}` — the position captured at A's original entry — is
broadcast to the entire room. -/
theorem C3_scenario_two_ads :
    pauseRecipients S3A.2 = ["host", "b"] ∧
    pauseRecipients S3B.2 = ["host"] ∧
    "a" ∉ pauseRecipients S3B.2 ∧
    "b" ∉ pauseRecipients S3B.2 ∧
    (endAd S3B.1 "R1" "a").2 = some (false, 120, true) ∧
    pauseRecipients S3exitA.2 = ["a"] ∧
    (endAd S3exitA.1 "R1" "b").2 = some (true, 120, true) ∧
    S3exitB.2 = [Emission.resumeAll ["host", "a", "b"] 120 true,
      Emission.adStateUpdate ["host", "a"] []] := by
  decide

/-! ### Room lifecycle sequences and the one-host invariant -/

/-- A room-registry operation: `createRoom`, `joinRoom` or `leaveRoom`. -/
inductive RegOp where
  | create (roomId hostSocketId hostUserId : String)
      (displayName : Option String) (now : Nat)
  | join (roomId socketId userId : String) (deviceType : DeviceType)
      (displayName : Option String) (now : Nat)
  | leave (socketId : String)

/-- Apply one registry operation, discarding the reply. -/
def applyRegOp (st : ServerState) : RegOp → ServerState
  | .create r h u d n => (createRoom st r h u d n).1
  | .join r s u dt d n => (joinRoom st r s u dt d n).1
  | .leave s => (leaveRoom st s).1

/-- Apply a sequence of registry operations. -/
def applyRegOps (st : ServerState) : List RegOp → ServerState
  | [] => st
  | op :: rest => applyRegOps (applyRegOp st op) rest

/-- Freshness of the identifiers an operation introduces: `generateRoomId`
returns an unused id, and a transport connection id is used by at most one
live connection, so a `create`/`join` never reuses a currently tracked
socket id. -/
def freshOp (st : ServerState) : RegOp → Prop
  | .create r h _ _ _ =>
      lookupA st.rooms r = none ∧ lookupA st.socketToRoom h = none
  | .join _ s _ _ _ _ => lookupA st.socketToRoom s = none
  | .leave _ => True

/-- Every operation of the sequence is fresh in the state it runs in. -/
def WFOps : ServerState → List RegOp → Prop
  | _, [] => True
  | st, op :: rest => freshOp st op ∧ WFOps (applyRegOp st op) rest

/-- Per-room invariant: a non-empty roster without duplicate connection
ids, whose `hostId` names a participant with `isHost = true`, and in which
`isHost = true` implies being that participant. -/
def RoomInv (room : RoomState) : Prop :=
  room.participants ≠ [] ∧
  (keysA room.participants).Nodup ∧
  (∃ p, lookupA room.participants room.hostId = some p ∧ p.isHost = true) ∧
  (∀ kp ∈ room.participants, kp.2.isHost = true → kp.1 = room.hostId)

/-- Global invariant tying the room store and the connection index. -/
def Inv (st : ServerState) : Prop :=
  (keysA st.rooms).Nodup ∧
  (keysA st.socketToRoom).Nodup ∧
  (∀ rr ∈ st.rooms, RoomInv rr.2) ∧
  (∀ sr ∈ st.socketToRoom, ∃ room, lookupA st.rooms sr.2 = some room ∧
    hasA room.participants sr.1 = true) ∧
  (∀ rr ∈ st.rooms, ∀ kp ∈ rr.2.participants,
    lookupA st.socketToRoom kp.1 = some rr.1)

theorem mem_of_lookupA {α : Type} {m : List (String × α)} {k : String}
    {v : α} (h : lookupA m k = some v) : (k, v) ∈ m := by
  induction m with
  | nil => simp [lookupA] at h
  | cons p rest ih =>
    obtain ⟨k', v'⟩ := p
    by_cases hk : k' = k
    · subst hk
      simp only [lookupA, if_pos rfl, Option.some.injEq, if_true,
        eq_self_iff_true] at h
      subst h
      exact List.mem_cons_self _ _
    · simp only [lookupA, hk, if_false] at h
      exact List.mem_cons_of_mem _ (ih h)

theorem mem_eraseA {α : Type} {m : List (String × α)} {k : String}
    {x : String × α} : x ∈ eraseA m k ↔ x ∈ m ∧ x.1 ≠ k := by
  constructor
  · intro h
    exact ⟨List.mem_of_mem_filter h, by simpa using List.of_mem_filter h⟩
  · intro ⟨hm, hne⟩
    exact List.mem_filter.mpr ⟨hm, by simpa using hne⟩

theorem mem_setA_of_nodup {α : Type} {m : List (String × α)}
    (hd : (keysA m).Nodup) (k : String) (v : α) (x : String × α) :
    x ∈ setA m k v ↔ (x = (k, v) ∨ (x ∈ m ∧ x.1 ≠ k)) := by
  induction m with
  | nil => simp [setA]
  | cons p rest ih =>
    obtain ⟨k', v'⟩ := p
    simp only [keysA, List.map_cons, List.nodup_cons] at hd
    by_cases hk : k' = k
    · subst hk
      have hset : setA ((k', v') :: rest) k' v = (k', v) :: rest := by
        simp [setA]
      rw [hset]
      simp only [List.mem_cons]
      constructor
      · rintro (h | h)
        · exact Or.inl h
        · refine Or.inr ⟨Or.inr h, ?_⟩
          intro hx1
          apply hd.1
          rw [← hx1]
          exact List.mem_map_of_mem Prod.fst h
      · rintro (h | ⟨hm | hm, hne⟩)
        · exact Or.inl h
        · exact absurd (congrArg Prod.fst hm) (by simpa using hne)
        · exact Or.inr hm
    · have hset : setA ((k', v') :: rest) k v = (k', v') :: setA rest k v := by
        simp [setA, hk]
      rw [hset]
      simp only [List.mem_cons, ih hd.2]
      constructor
      · rintro (h | h | h)
        · refine Or.inr ⟨Or.inl h, ?_⟩
          rw [h]
          simpa using hk
        · exact Or.inl h
        · exact Or.inr ⟨Or.inr h.1, h.2⟩
      · rintro (h | ⟨hm | hm, hne⟩)
        · exact Or.inr (Or.inl h)
        · exact Or.inl hm
        · exact Or.inr (Or.inr ⟨hm, hne⟩)

theorem hasA_setA_of_has {α : Type} {m : List (String × α)} {k' : String}
    (k : String) (v : α) (h : hasA m k' = true) :
    hasA (setA m k v) k' = true := by
  by_cases hk : k' = k
  · subst hk
    simp [hasA, lookupA_setA_self]
  · simpa [hasA, lookupA_setA_ne _ _ hk] using h

theorem hasA_eraseA_ne {α : Type} {m : List (String × α)} {k k' : String}
    (h : k' ≠ k) : hasA (eraseA m k) k' = hasA m k' := by
  simp [hasA, lookupA_eraseA_ne _ h]

theorem fst_mem_keysA {α : Type} {m : List (String × α)} {x : String × α}
    (h : x ∈ m) : x.1 ∈ keysA m :=
  List.mem_map_of_mem Prod.fst h

/-- In a roster satisfying the host conditions, exactly one entry has
`isHost = true`. -/
theorem filter_isHost_length_one (l : List (String × Participant)) :
    ∀ (k0 : String),
    (keysA l).Nodup →
    (∃ p0, lookupA l k0 = some p0 ∧ p0.isHost = true) →
    (∀ kp ∈ l, kp.2.isHost = true → kp.1 = k0) →
    (l.filter (fun kp => kp.2.isHost)).length = 1 := by
  induction l with
  | nil =>
    intro k0 _ hmem _
    obtain ⟨p0, hp0, _⟩ := hmem
    simp [lookupA] at hp0
  | cons kv rest ih =>
    intro k0 hd hmem huniq
    obtain ⟨k, v⟩ := kv
    simp only [keysA, List.map_cons, List.nodup_cons] at hd
    by_cases hhost : v.isHost = true
    · have hk : k = k0 := huniq (k, v) (List.mem_cons_self _ _) hhost
      subst hk
      have hrest : rest.filter (fun kp => kp.2.isHost) = [] := by
        rw [List.filter_eq_nil_iff]
        intro kp hkp
        intro hkph
        have := huniq kp (List.mem_cons_of_mem _ hkp)
          (by simpa using hkph)
        apply hd.1
        rw [← this]
        exact fst_mem_keysA hkp
      simp [List.filter_cons, hhost, hrest]
    · have hk : k ≠ k0 := by
        intro hk
        subst hk
        obtain ⟨p0, hp0, hp0h⟩ := hmem
        simp [lookupA] at hp0
        rw [← hp0] at hp0h
        exact hhost hp0h
      obtain ⟨p0, hp0, hp0h⟩ := hmem
      simp only [lookupA, hk, if_false] at hp0
      have := ih k0 hd.2 ⟨p0, hp0, hp0h⟩
        (fun kp hkp => huniq kp (List.mem_cons_of_mem _ hkp))
      simpa [List.filter_cons, hhost] using this

theorem Inv_init : Inv ServerState.init := by
  refine ⟨List.nodup_nil, List.nodup_nil, ?_, ?_, ?_⟩ <;> simp [ServerState.init]

theorem Inv_create (st : ServerState) (r hs hu : String) (d : Option String)
    (n : Nat) (hInv : Inv st) (hfr : lookupA st.rooms r = none)
    (hfh : lookupA st.socketToRoom hs = none) :
    Inv (createRoom st r hs hu d n).1 := by
  obtain ⟨hrn, hsn, hri, hsr, hrs⟩ := hInv
  simp only [createRoom]
  refine ⟨keysA_nodup_setA _ _ _ hrn, keysA_nodup_setA _ _ _ hsn, ?_, ?_, ?_⟩
  · intro rr hmem
    rcases (mem_setA_of_nodup hrn r _ rr).mp hmem with heq | ⟨hm, _⟩
    · subst heq
      refine ⟨by simp, by simp [keysA],
        ⟨{ id := hs, userId := hu, deviceType := .desktop, displayName := d,
           isHost := true, joinedAt := n }, by simp [lookupA], rfl⟩, ?_⟩
      intro kp hkp _
      simp only [List.mem_singleton] at hkp
      subst hkp
      rfl
    · exact hri rr hm
  · intro sr hmem
    rcases (mem_setA_of_nodup hsn hs r sr).mp hmem with heq | ⟨hm, hne⟩
    · subst heq
      refine ⟨_, lookupA_setA_self _ _ _, ?_⟩
      simp [hasA, lookupA]
    · obtain ⟨room₀, hlk₀, hhas₀⟩ := hsr sr hm
      have hne2 : sr.2 ≠ r := by
        intro hc
        rw [hc, hfr] at hlk₀
        exact Option.noConfusion hlk₀
      exact ⟨room₀, by rw [lookupA_setA_ne _ _ hne2]; exact hlk₀, hhas₀⟩
  · intro rr hmem kp hkp
    rcases (mem_setA_of_nodup hrn r _ rr).mp hmem with heq | ⟨hm, _⟩
    · subst heq
      simp only [List.mem_singleton] at hkp
      subst hkp
      exact lookupA_setA_self _ _ _
    · have hold := hrs rr hm kp hkp
      have hne : kp.1 ≠ hs := by
        intro hc
        rw [hc, hfh] at hold
        exact Option.noConfusion hold
      rw [lookupA_setA_ne _ _ hne]
      exact hold

/-- A socket not tracked in the connection index is in no room's roster. -/
theorem not_in_any_roster (st : ServerState) (s : String) (hInv : Inv st)
    (hfs : lookupA st.socketToRoom s = none) :
    ∀ rr ∈ st.rooms, hasA rr.2.participants s = false := by
  obtain ⟨_, _, _, _, hrs⟩ := hInv
  intro rr hm
  cases hh : hasA rr.2.participants s with
  | false => rfl
  | true =>
    exfalso
    obtain ⟨v, hv⟩ := Option.isSome_iff_exists.mp hh
    have := hrs rr hm (s, v) (mem_of_lookupA hv)
    rw [hfs] at this
    exact Option.noConfusion this

theorem Inv_join (st : ServerState) (r s u : String) (dt : DeviceType)
    (d : Option String) (n : Nat) (hInv : Inv st)
    (hfs : lookupA st.socketToRoom s = none) :
    Inv (joinRoom st r s u dt d n).1 := by
  cases hlk : lookupA st.rooms r with
  | none => simpa [joinRoom, hlk] using hInv
  | some room =>
    have hnotkey := not_in_any_roster st s hInv hfs
    obtain ⟨hrn, hsn, hri, hsr, hrs⟩ := hInv
    have hmemRoom : (r, room) ∈ st.rooms := mem_of_lookupA hlk
    obtain ⟨hneR, hndR, ⟨hp, hlkp, hiph⟩, huniqR⟩ := hri (r, room) hmemRoom
    have hroomS : hasA room.participants s = false := hnotkey (r, room) hmemRoom
    have hostNe : room.hostId ≠ s := by
      intro hc
      rw [hc] at hlkp
      simp [hasA, hlkp] at hroomS
    simp only [joinRoom, hlk]
    refine ⟨keysA_nodup_setA _ _ _ hrn, keysA_nodup_setA _ _ _ hsn, ?_, ?_, ?_⟩
    · intro rr hmem
      rcases (mem_setA_of_nodup hrn r _ rr).mp hmem with heq | ⟨hm, _⟩
      · subst heq
        refine ⟨setA_ne_nil _ _ _, keysA_nodup_setA _ _ _ hndR,
          ⟨hp, ?_, hiph⟩, ?_⟩
        · rw [lookupA_setA_ne _ _ hostNe]
          exact hlkp
        · intro kp hkp hkph
          rcases (mem_setA_of_nodup hndR s _ kp).mp hkp with heq2 | ⟨hm2, _⟩
          · subst heq2
            simp at hkph
          · exact huniqR kp hm2 hkph
      · exact hri rr hm
    · intro sr hmem
      rcases (mem_setA_of_nodup hsn s r sr).mp hmem with heq | ⟨hm, hne⟩
      · subst heq
        refine ⟨_, lookupA_setA_self _ _ _, ?_⟩
        simp [hasA, lookupA_setA_self]
      · obtain ⟨room₀, hlk₀, hhas₀⟩ := hsr sr hm
        by_cases hc : sr.2 = r
        · rw [hc, hlk] at hlk₀
          obtain rfl := Option.some_injective _ hlk₀
          refine ⟨_, by rw [hc]; exact lookupA_setA_self _ _ _, ?_⟩
          exact hasA_setA_of_has _ _ hhas₀
        · exact ⟨room₀, by rw [lookupA_setA_ne _ _ hc]; exact hlk₀, hhas₀⟩
    · intro rr hmem kp hkp
      rcases (mem_setA_of_nodup hrn r _ rr).mp hmem with heq | ⟨hm, _⟩
      · subst heq
        rcases (mem_setA_of_nodup hndR s _ kp).mp hkp with heq2 | ⟨hm2, hne2⟩
        · subst heq2
          exact lookupA_setA_self _ _ _
        · have hold := hrs (r, room) hmemRoom kp hm2
          rw [lookupA_setA_ne _ _ hne2]
          exact hold
      · have hold := hrs rr hm kp hkp
        have hne : kp.1 ≠ s := by
          intro hc
          rw [hc, hfs] at hold
          exact Option.noConfusion hold
        rw [lookupA_setA_ne _ _ hne]
        exact hold

/-- A tracked socket appears only in the roster of its own room. -/
theorem only_room_of_socket (st : ServerState) (s rid : String) (hInv : Inv st)
    (h1 : lookupA st.socketToRoom s = some rid) :
    ∀ rr ∈ st.rooms, rr.1 ≠ rid → hasA rr.2.participants s = false := by
  obtain ⟨_, _, _, _, hrs⟩ := hInv
  intro rr hm hne
  cases hh : hasA rr.2.participants s with
  | false => rfl
  | true =>
    exfalso
    obtain ⟨v, hv⟩ := Option.isSome_iff_exists.mp hh
    have := hrs rr hm (s, v) (mem_of_lookupA hv)
    rw [h1] at this
    exact hne (Option.some_injective _ this).symm

theorem Inv_leave (st : ServerState) (s : String) (hInv : Inv st) :
    Inv (leaveRoom st s).1 := by
  cases h1 : lookupA st.socketToRoom s with
  | none => simpa [leaveRoom, h1] using hInv
  | some rid =>
    cases h2 : lookupA st.rooms rid with
    | none => simpa [leaveRoom, h1, h2] using hInv
    | some room =>
      obtain ⟨hrn, hsn, hri, hsr, hrs⟩ := hInv
      have hmemRoom : (rid, room) ∈ st.rooms := mem_of_lookupA h2
      obtain ⟨hneR, hndR, ⟨hp, hlkp, hiph⟩, huniqR⟩ := hri (rid, room) hmemRoom
      have herasend : (keysA (eraseA room.participants s)).Nodup :=
        keysA_nodup_eraseA _ _ hndR
      simp only [leaveRoom, h1, h2]
      by_cases hhost : room.hostId = s
      · rw [if_pos hhost]
        cases hkeys : keysA (eraseA room.participants s) with
        | nil =>
          have hallkeys : ∀ k ∈ keysA room.participants, k = s := by
            have hfil : (keysA room.participants).filter
                (fun id => id ≠ s) = [] := by
              rw [← keysA_eraseA]
              exact hkeys
            intro k hk
            by_contra hne
            have : k ∈ (keysA room.participants).filter (fun id => id ≠ s) :=
              List.mem_filter.mpr ⟨hk, by simpa using hne⟩
            rw [hfil] at this
            exact absurd this (List.not_mem_nil k)
          refine ⟨keysA_nodup_eraseA _ _ hrn, keysA_nodup_eraseA _ _ hsn,
            ?_, ?_, ?_⟩
          · intro rr hmem
            exact hri rr (mem_eraseA.mp hmem).1
          · intro sr hmem
            obtain ⟨hm, hnes⟩ := mem_eraseA.mp hmem
            obtain ⟨room₀, hlk₀, hhas₀⟩ := hsr sr hm
            have hne2 : sr.2 ≠ rid := by
              intro hc
              rw [hc, h2] at hlk₀
              obtain rfl := Option.some_injective _ hlk₀
              obtain ⟨v, hv⟩ := Option.isSome_iff_exists.mp hhas₀
              exact hnes (hallkeys sr.1 (fst_mem_keysA (mem_of_lookupA hv)))
            exact ⟨room₀, by rw [lookupA_eraseA_ne _ hne2]; exact hlk₀, hhas₀⟩
          · intro rr hmem kp hkp
            obtain ⟨hm, hner⟩ := mem_eraseA.mp hmem
            have hold := hrs rr hm kp hkp
            have hne : kp.1 ≠ s := by
              intro hc
              rw [hc, h1] at hold
              exact hner (Option.some_injective _ hold).symm
            rw [lookupA_eraseA_ne _ hne]
            exact hold
        | cons newHost restKeys =>
          have hnhmem : newHost ∈ keysA (eraseA room.participants s) := by
            rw [hkeys]
            exact List.mem_cons_self _ _
          have hnhne : newHost ≠ s := ne_of_mem_keysA_eraseA hnhmem
          have hnhhas : hasA (eraseA room.participants s) newHost = true :=
            (hasA_iff_mem_keysA _ _).mpr hnhmem
          cases hlkNH : lookupA (eraseA room.participants s) newHost with
          | none => simp [hasA, hlkNH] at hnhhas
          | some p =>
            have hpmem : (newHost, p) ∈ room.participants :=
              (mem_eraseA.mp (mem_of_lookupA hlkNH)).1
            simp only [hlkNH]
            refine ⟨keysA_nodup_setA _ _ _ hrn, keysA_nodup_eraseA _ _ hsn,
              ?_, ?_, ?_⟩
            · intro rr hmem
              rcases (mem_setA_of_nodup hrn rid _ rr).mp hmem with heq | ⟨hm, _⟩
              · subst heq
                refine ⟨setA_ne_nil _ _ _,
                  keysA_nodup_setA _ _ _ herasend,
                  ⟨{ p with isHost := true }, lookupA_setA_self _ _ _, rfl⟩,
                  ?_⟩
                intro kp hkp hkph
                rcases (mem_setA_of_nodup herasend newHost _ kp).mp hkp with
                  heq2 | ⟨hm2, hne2⟩
                · subst heq2; rfl
                · obtain ⟨hm3, hnes⟩ := mem_eraseA.mp hm2
                  have := huniqR kp hm3 hkph
                  rw [hhost] at this
                  exact absurd this hnes
              · exact hri rr hm
            · intro sr hmem
              obtain ⟨hm, hnes⟩ := mem_eraseA.mp hmem
              obtain ⟨room₀, hlk₀, hhas₀⟩ := hsr sr hm
              by_cases hc : sr.2 = rid
              · rw [hc, h2] at hlk₀
                obtain rfl := Option.some_injective _ hlk₀
                refine ⟨_, by rw [hc]; exact lookupA_setA_self _ _ _, ?_⟩
                apply hasA_setA_of_has
                rw [hasA_eraseA_ne hnes]
                exact hhas₀
              · exact ⟨room₀, by rw [lookupA_setA_ne _ _ hc]; exact hlk₀,
                  hhas₀⟩
            · intro rr hmem kp hkp
              rcases (mem_setA_of_nodup hrn rid _ rr).mp hmem with
                heq | ⟨hm, hner⟩
              · subst heq
                rcases (mem_setA_of_nodup herasend newHost _ kp).mp hkp with
                  heq2 | ⟨hm2, hne2⟩
                · subst heq2
                  have hold := hrs (rid, room) hmemRoom (newHost, p) hpmem
                  rw [lookupA_eraseA_ne _ hnhne]
                  exact hold
                · obtain ⟨hm3, hnes⟩ := mem_eraseA.mp hm2
                  have hold := hrs (rid, room) hmemRoom kp hm3
                  rw [lookupA_eraseA_ne _ hnes]
                  exact hold
              · have hold := hrs rr hm kp hkp
                have hne : kp.1 ≠ s := by
                  intro hc
                  rw [hc, h1] at hold
                  exact hner (Option.some_injective _ hold).symm
                rw [lookupA_eraseA_ne _ hne]
                exact hold
      · rw [if_neg hhost]
        have hlkh : lookupA (eraseA room.participants s) room.hostId = some hp
            := by
          rw [lookupA_eraseA_ne _ hhost]
          exact hlkp
        refine ⟨keysA_nodup_setA _ _ _ hrn, keysA_nodup_eraseA _ _ hsn,
          ?_, ?_, ?_⟩
        · intro rr hmem
          rcases (mem_setA_of_nodup hrn rid _ rr).mp hmem with heq | ⟨hm, _⟩
          · subst heq
            refine ⟨?_, herasend, ⟨hp, hlkh, hiph⟩, ?_⟩
            · intro hE
              have hE' : eraseA room.participants s = [] := hE
              rw [hE'] at hlkh
              simp [lookupA] at hlkh
            · intro kp hkp hkph
              exact huniqR kp (mem_eraseA.mp hkp).1 hkph
          · exact hri rr hm
        · intro sr hmem
          obtain ⟨hm, hnes⟩ := mem_eraseA.mp hmem
          obtain ⟨room₀, hlk₀, hhas₀⟩ := hsr sr hm
          by_cases hc : sr.2 = rid
          · rw [hc, h2] at hlk₀
            obtain rfl := Option.some_injective _ hlk₀
            refine ⟨_, by rw [hc]; exact lookupA_setA_self _ _ _, ?_⟩
            show hasA (eraseA room.participants s) sr.1 = true
            rw [hasA_eraseA_ne hnes]
            exact hhas₀
          · exact ⟨room₀, by rw [lookupA_setA_ne _ _ hc]; exact hlk₀, hhas₀⟩
        · intro rr hmem kp hkp
          rcases (mem_setA_of_nodup hrn rid _ rr).mp hmem with heq | ⟨hm, hner⟩
          · subst heq
            obtain ⟨hm3, hnes⟩ := mem_eraseA.mp hkp
            have hold := hrs (rid, room) hmemRoom kp hm3
            rw [lookupA_eraseA_ne _ hnes]
            exact hold
          · have hold := hrs rr hm kp hkp
            have hne : kp.1 ≠ s := by
              intro hc
              rw [hc, h1] at hold
              exact hner (Option.some_injective _ hold).symm
            rw [lookupA_eraseA_ne _ hne]
            exact hold

theorem Inv_applyRegOp (st : ServerState) (op : RegOp) (hInv : Inv st)
    (hf : freshOp st op) : Inv (applyRegOp st op) := by
  cases op with
  | create r h u d n => exact Inv_create st r h u d n hInv hf.1 hf.2
  | join r s u dt d n => exact Inv_join st r s u dt d n hInv hf
  | leave s => exact Inv_leave st s hInv

theorem Inv_applyRegOps (ops : List RegOp) :
    ∀ st, Inv st → WFOps st ops → Inv (applyRegOps st ops) := by
  induction ops with
  | nil => intro st h _; exact h
  | cons op rest ih =>
    intro st h hwf
    exact ih _ (Inv_applyRegOp st op h hwf.1) hwf.2

/-- C6 (amended): for every sequence of createRoom/joinRoom/leaveRoom
operations in which every `createRoom` uses a not-yet-used room id and every
`createRoom`/`joinRoom` uses a connection id not currently tracked in the
connection-to-room index, every existing room has at least one participant
and exactly one participant with `isHost = true`; `leaveRoom` by the host
while other participants remain stores a room with exactly one host — a
promoted previous participant different from the leaver — and `leaveRoom`
by the last remaining participant destroys the room, returning
`room = null`. -/
theorem C6_one_host_invariant
    : (∀ ops : List RegOp, WFOps ServerState.init ops →
        ∀ rr ∈ (applyRegOps ServerState.init ops).rooms,
          rr.2.participants ≠ [] ∧
          (rr.2.participants.filter (fun kp => kp.2.isHost)).length = 1) ∧
      (∀ (st : ServerState) (s rid : String) (room : RoomState), Inv st →
        lookupA st.socketToRoom s = some rid →
        lookupA st.rooms rid = some room →
        room.hostId = s →
        eraseA room.participants s ≠ [] →
        ∃ room', (leaveRoom st s).2 = some (rid, some room') ∧
          lookupA (leaveRoom st s).1.rooms rid = some room' ∧
          (room'.participants.filter (fun kp => kp.2.isHost)).length = 1 ∧
          hasA room.participants room'.hostId = true ∧
          room'.hostId ≠ s) ∧
      (∀ (st : ServerState) (s rid : String) (room : RoomState), Inv st →
        lookupA st.socketToRoom s = some rid →
        lookupA st.rooms rid = some room →
        keysA room.participants = [s] →
        (leaveRoom st s).2 = some (rid, none) ∧
        lookupA (leaveRoom st s).1.rooms rid = none) := by
  refine ⟨?_, ?_, ?_⟩
  · intro ops hwf rr hm
    have hInv := Inv_applyRegOps ops ServerState.init Inv_init hwf
    obtain ⟨_, _, hri, _, _⟩ := hInv
    obtain ⟨hne, hnd, hmem, huniq⟩ := hri rr hm
    exact ⟨hne, filter_isHost_length_one _ _ hnd hmem huniq⟩
  · intro st s rid room hInv h1 h2 hhost hrem
    obtain ⟨hrn, hsn, hri, hsr, hrs⟩ := hInv
    have hmemRoom : (rid, room) ∈ st.rooms := mem_of_lookupA h2
    obtain ⟨hneR, hndR, ⟨hp, hlkp, hiph⟩, huniqR⟩ := hri (rid, room) hmemRoom
    have herasend : (keysA (eraseA room.participants s)).Nodup :=
      keysA_nodup_eraseA _ _ hndR
    cases hkeys : keysA (eraseA room.participants s) with
    | nil =>
      exfalso
      apply hrem
      have := hkeys
      simpa [keysA, List.map_eq_nil_iff] using this
    | cons newHost restKeys =>
      have hnhmem : newHost ∈ keysA (eraseA room.participants s) := by
        rw [hkeys]
        exact List.mem_cons_self _ _
      have hnhne : newHost ≠ s := ne_of_mem_keysA_eraseA hnhmem
      have hnhhas : hasA (eraseA room.participants s) newHost = true :=
        (hasA_iff_mem_keysA _ _).mpr hnhmem
      cases hlkNH : lookupA (eraseA room.participants s) newHost with
      | none => simp [hasA, hlkNH] at hnhhas
      | some p =>
        refine ⟨{ room with
                  hostId := newHost,
                  participants := setA (eraseA room.participants s) newHost
                    { p with isHost := true } },
          ?_, ?_, ?_, ?_, hnhne⟩
        · simp only [leaveRoom, h1, h2, if_pos hhost, hkeys, hlkNH]
        · simp only [leaveRoom, h1, h2, if_pos hhost, hkeys, hlkNH]
          exact lookupA_setA_self _ _ _
        · apply filter_isHost_length_one _ newHost
            (keysA_nodup_setA _ _ _ herasend)
            ⟨{ p with isHost := true }, lookupA_setA_self _ _ _, rfl⟩
          intro kp hkp hkph
          rcases (mem_setA_of_nodup herasend newHost _ kp).mp hkp with
            heq2 | ⟨hm2, hne2⟩
          · subst heq2; rfl
          · obtain ⟨hm3, hnes⟩ := mem_eraseA.mp hm2
            have := huniqR kp hm3 hkph
            rw [hhost] at this
            exact absurd this hnes
        · show hasA room.participants newHost = true
          rw [← hasA_eraseA_ne hnhne]
          exact hnhhas
  · intro st s rid room hInv h1 h2 hkeysR
    obtain ⟨hrn, hsn, hri, hsr, hrs⟩ := hInv
    have hmemRoom : (rid, room) ∈ st.rooms := mem_of_lookupA h2
    obtain ⟨hneR, hndR, ⟨hp, hlkp, hiph⟩, huniqR⟩ := hri (rid, room) hmemRoom
    have hhost : room.hostId = s := by
      have hhas : hasA room.participants room.hostId = true := by
        simp [hasA, hlkp]
      have := (hasA_iff_mem_keysA _ _).mp hhas
      rw [hkeysR] at this
      simpa using this
    have hkeysE : keysA (eraseA room.participants s) = [] := by
      rw [keysA_eraseA, hkeysR]
      simp
    constructor
    · simp only [leaveRoom, h1, h2, if_pos hhost, hkeysE]
    · simp only [leaveRoom, h1, h2, if_pos hhost, hkeysE]
      exact lookupA_eraseA_self _ _

/-- Counterexample to C6 as stated: the claim quantifies over *every*
sequence of createRoom/joinRoom/leaveRoom calls, but when the room creator's
own connection id is passed to `joinRoom` for its own room, the host's
roster entry is overwritten with `isHost = false`, leaving an existing room
with zero hosts. -/
theorem C6_counterexample_rejoin_loses_host :
    getRoom (applyRegOps ServerState.init
      [RegOp.create "R1" "h" "hu" none 0,
       RegOp.join "R1" "h" "hu" DeviceType.desktop none 1]) "R1" ≠ none ∧
    (((getRoom (applyRegOps ServerState.init
        [RegOp.create "R1" "h" "hu" none 0,
         RegOp.join "R1" "h" "hu" DeviceType.desktop none 1]) "R1").getD
      (createRoom ServerState.init "Z" "z" "z" none 0).2).participants.filter
        (fun kp => kp.2.isHost)).length = 0 := by
  decide

/-- Default room used to extract optional results in concrete runs. -/
def zRoom : RoomState := (createRoom ServerState.init "Z" "z" "z" none 0).2

/-- Concrete registry run for the C6 witness: host `h` creates `R1`, `a`
joins. -/
def W6ops : List RegOp :=
  [RegOp.create "R1" "h" "hu" none 0,
   RegOp.join "R1" "a" "ua" DeviceType.desktop none 1]

/-- The state after `W6ops`. -/
def W6st : ServerState := applyRegOps ServerState.init W6ops

/-- The room `R1` of `W6st`. -/
def W6room : RoomState := (getRoom W6st "R1").getD zRoom

/-- The room stored after the host `h` leaves `W6st`. -/
def W6room' : RoomState :=
  (((leaveRoom W6st "h").2.getD ("", none)).2).getD zRoom

/-- A one-participant room `R2` owned by `a`. -/
def W6solo : ServerState :=
  applyRegOps ServerState.init [RegOp.create "R2" "a" "ua" none 0]

/-- The room `R2` of `W6solo`. -/
def W6soloRoom : RoomState := (getRoom W6solo "R2").getD zRoom

theorem W6wf : WFOps ServerState.init W6ops :=
  ⟨⟨rfl, rfl⟩, rfl, trivial⟩

theorem W6soloWf :
    WFOps ServerState.init [RegOp.create "R2" "a" "ua" none 0] :=
  ⟨⟨rfl, rfl⟩, trivial⟩

/-- Witness for C6 (amended): after `h` creates `R1` and `a` joins, the room
has exactly one host; when `h` then leaves, the stored room again has
exactly one host (the promoted `a`); and when the sole participant of `R2`
leaves, the room is destroyed. -/
theorem C6_one_host_invariant_witness :
    (W6room.participants.filter (fun kp => kp.2.isHost)).length = 1 ∧
    (leaveRoom W6st "h").2 = some ("R1", some W6room') ∧
    (W6room'.participants.filter (fun kp => kp.2.isHost)).length = 1 ∧
    W6room'.hostId ≠ "h" ∧
    (leaveRoom W6solo "a").2 = some ("R2", none) ∧
    lookupA (leaveRoom W6solo "a").1.rooms "R2" = none := by
  obtain ⟨hA, hB, hC⟩ := C6_one_host_invariant
  have hInv6 : Inv W6st := Inv_applyRegOps W6ops ServerState.init Inv_init W6wf
  have hInvS : Inv W6solo :=
    Inv_applyRegOps _ ServerState.init Inv_init W6soloWf
  have h1 := hA W6ops W6wf ("R1", W6room) (by decide)
  obtain ⟨room', hres, hlk, hlen, hhas, hne⟩ :=
    hB W6st "h" "R1" W6room hInv6 (by decide) (by decide) (by decide)
      (by decide)
  have hroom' : room' = W6room' := by
    simp only [W6room', hres]
    rfl
  subst hroom'
  have h3 := hC W6solo "a" "R2" W6soloRoom hInvS (by decide) (by decide)
    (by decide)
  exact ⟨h1.2, hres, hlen, hne, h3.1, h3.2⟩

end AirView
